import Mathlib

/-!
# Verification of the multi-page table reconciliation pipeline

Shallow embedding of the Python sources `server/python/table_postprocess.py`,
`server/python/main.py` and `attached_assets/app_1763405179987.py`
(the analysis helpers of the Streamlit app), together with theorems that
settle the specification claims about them.

Modelling conventions:
* A pandas `DataFrame` is a `Table`: an ordered list of column labels
  (`header`) and ordered rows of string cells.  The pipeline converts every
  cell through `str(...)` before use, so cells are strings.
* `df.reindex(columns=...)` fills missing columns with `NaN`; every later
  stage reads cells through `str()`, under which `NaN` prints as `"nan"`,
  so the fill value is modelled as the string `"nan"`.
* `str.strip()` is modelled by trimming whitespace from both ends
  (`pyStrip`); `str.lower()` is modelled by ASCII lowercasing (`pyLower`) —
  all tokens the pipeline compares against are ASCII.
* Python `dict` is an association list with insert-at-end /
  update-in-place semantics (`dictSet`, `setdefaultAppend`), matching
  insertion-order iteration.
* Fractional threshold comparisons (`fraction < 0.5`) are modelled exactly
  on naturals (`2 * count < total`).
* Label-based column selection (`df[c]`, `reindex`) is modelled as
  first-matching-position lookup; this coincides with pandas whenever the
  labels involved are pairwise distinct, which the theorems assume where
  it matters.
-/

/-! ## Python string primitives -/

/-- Trim whitespace from both ends of a character list (model of `str.strip`). -/
def trimData (l : List Char) : List Char :=
  ((l.dropWhile Char.isWhitespace).reverse.dropWhile Char.isWhitespace).reverse

/-- Model of Python `str.strip()`. -/
def pyStrip (s : String) : String := ⟨trimData s.data⟩

/-- ASCII lowercasing of one character (model of `str.lower` per character). -/
def asciiLower (c : Char) : Char :=
  if 65 ≤ c.toNat ∧ c.toNat ≤ 90 then Char.ofNat (c.toNat + 32) else c

/-- Model of Python `str.lower()` (ASCII range, which covers every token the
pipeline compares against). -/
def pyLower (s : String) : String := ⟨s.data.map asciiLower⟩

/-- Model of `str.replace("\n", " ")`. -/
def replNL (s : String) : String :=
  ⟨s.data.map (fun c => if c = '\n' then ' ' else c)⟩

/-- `str(x).strip().lower()`, the normalisation used by
`remove_repeated_header_rows`. -/
def normCell (s : String) : String := pyLower (pyStrip s)

/-! ## Tables -/

/-- A pandas `DataFrame` of string cells: column labels plus rows. -/
structure Table where
  header : List String
  rows : List (List String)
deriving DecidableEq, Repr

/-- Well-formedness: the table is rectangular (every row has one cell per
column), as every `DataFrame` is. -/
def Table.wf (t : Table) : Prop := ∀ r ∈ t.rows, r.length = t.header.length

instance (t : Table) : Decidable t.wf := by
  unfold Table.wf; infer_instance

/-- pandas `df.empty`: true when either axis has length zero. -/
def Table.isEmptyB (t : Table) : Bool := t.rows.isEmpty || t.header.isEmpty

/-- Normalise a whole row the way `remove_repeated_header_rows` does. -/
def normRow (r : List String) : List String := r.map normCell

/-! ## `table_postprocess.py`: cleaning helpers -/

/-- The exact null-like strings tested by `isin([...])` and `replace({...})`
in `table_postprocess.py` (lines 25, 46, 207). -/
def sixTokens : List String := ["None", "none", "NULL", "null", "nan", "NaN"]

/-- Number of cells of a row that are exactly one of the six null-like
strings (`row.astype(str).isin([...]).sum()`). -/
def rowNoneCount (r : List String) : Nat := r.countP (fun c => sixTokens.contains c)

/-- Keep a row when it has cells and its exactly-null-like fraction is
below 1/2 (`fraction < threshold` with `threshold = 0.5`). -/
def rowKeep (r : List String) : Bool :=
  !(r.length == 0) && decide (2 * rowNoneCount r < r.length)

/-- `remove_rows_with_many_nones(df, threshold=0.5)`: keep rows whose
fraction of exactly-null-like cells is < 1/2; a row with zero cells is
skipped (not kept); an empty-axis table is returned unchanged. -/
def remove_rows_with_many_nones (t : Table) : Table :=
  if t.isEmptyB then t
  else ⟨t.header, t.rows.filter rowKeep⟩

/-- Order-preserving removal of exact duplicates keeping the first
occurrence (`drop_duplicates(keep="first")`). -/
def dedupFirst {α : Type} [BEq α] : List α → List α :=
  go []
where
  go (seen : List α) : List α → List α
    | [] => []
    | a :: as => if seen.contains a then go seen as else a :: go (a :: seen) as

/-- `remove_repeated_header_rows(df)`: normalise all cells to
trimmed-lowercase, drop rows equal to the normalised column labels, then
drop exact duplicate rows keeping the first.  NOTE: the function returns
the rows of the normalised copy, so surviving cells come out
trimmed-lowercased. -/
def remove_repeated_header_rows (t : Table) : Table :=
  if t.isEmptyB then t
  else
    let tmp := t.rows.map normRow
    let headerVals := t.header.map normCell
    let kept := tmp.filter (fun row => !(row.map normCell == headerVals))
    if kept.isEmpty then ⟨t.header, []⟩
    else ⟨t.header, dedupFirst kept⟩

/-- The null-like header test of `fill_empty_header_with_previous`:
`val_str == "" or val_str.lower() in ["none", "nan", "null"]`. -/
def headerBlank (s : String) : Bool :=
  s == "" || ["none", "nan", "null"].contains (pyLower s)

/-- The left-to-right fill of the first row: a null-like cell inherits the
previous non-empty stripped value (initially `""`).  The source strips each
value twice (`.str.strip()` on the row, then `.strip()` per value). -/
def fillHeaderVals (last : String) : List String → List String
  | [] => []
  | v :: vs =>
      let s := pyStrip (pyStrip v)
      if headerBlank s then last :: fillHeaderVals last vs
      else s :: fillHeaderVals s vs

/-- Apply a function to the first element of a list only. -/
def mapHead {α : Type} (f : α → α) : List α → List α
  | [] => []
  | a :: as => f a :: as

/-- `fill_empty_header_with_previous(df)`: repair blanks in row 0 only
(the row list is non-empty whenever the empty-axis guard passes). -/
def fill_empty_header_with_previous (t : Table) : Table :=
  if t.isEmptyB then t
  else ⟨t.header, mapHead (fillHeaderVals "") t.rows⟩

/-! ### `normalize_headers_with_subcolumns`

The Python loop threads two pieces of state: `(seen, new_cols)` computed
from the headers alone, and the mutated cell matrix.  Since the headers
never depend on the cells, the loop is modelled in two phases: first the
header scan producing the merge operations in order, then the row updates.
`seen[key]` stores `len(new_cols)` at insertion time and is later used as
a positional index `df.iloc[:, prev_idx]` into the full table — modelled
faithfully.  `df[c]` (label lookup) is modelled as the first column whose
stripped label equals `c`. -/

/-- One step of the header scan of `normalize_headers_with_subcolumns`. -/
def headerScanStep (hdr : List String)
    (st : List (String × Nat) × List String × List (Nat × Nat)) (c : String) :
    List (String × Nat) × List String × List (Nat × Nat) :=
  let (seen, newCols, ops) := st
  let key := pyLower c
  match seen.lookup key with
  | some prevIdx => (seen, newCols, ops ++ [(prevIdx, hdr.findIdx (fun x => x == c))])
  | none => (seen ++ [(key, newCols.length)], newCols ++ [c], ops)

/-- State of the header scan: association of lowercased keys to
`len(new_cols)` at first sight, the deduplicated labels, and the merge
operations `(prev_idx, source column position)` in loop order. -/
def headerScan (hdr : List String) : List (String × Nat) × List String × List (Nat × Nat) :=
  hdr.foldl (headerScanStep hdr) ([], [], [])

/-- Apply one merge `df.iloc[:, prev_idx] = merged.where(merged.str.strip() != "", curr)`
to one row: keep the value at `prevIdx` unless its strip is empty, in which
case take the value of the source column. -/
def applyOps (ops : List (Nat × Nat)) (r : List String) : List String :=
  ops.foldl
    (fun r op =>
      let m := r.getD op.1 ""
      r.set op.1 (if pyStrip m == "" then r.getD op.2 "" else m))
    r

/-- Select the cells of a row at the given column positions. -/
def selCols (ks : List Nat) (r : List String) : List String :=
  ks.map (fun j => r.getD j "")

/-- `df.loc[:, new_cols]`: for each requested label in order, all column
positions carrying that exact label, in original order. -/
def locSel (hdr : List String) (labels : List String) : List Nat :=
  labels.flatMap (fun c => (List.range hdr.length).filter (fun j => hdr.getD j "" == c))

/-- `normalize_headers_with_subcolumns(df)`. -/
def normalize_headers_with_subcolumns (t : Table) : Table :=
  if t.isEmptyB then t
  else
    let hdr := t.header.map pyStrip
    let scan := headerScan hdr
    let newCols := scan.2.1
    let ops := scan.2.2
    let sel := locSel hdr newCols
    let rows1 := t.rows.map (applyOps ops)
    ⟨selCols sel hdr, rows1.map (selCols sel)⟩

/-- One cell of `df.replace({...})`: the six null strings become `""`. -/
def replaceTok (c : String) : String := if sixTokens.contains c then "" else c

/-- A column is blank when every (replaced) cell strips to `""`. -/
def colBlank (rows : List (List String)) (j : Nat) : Bool :=
  rows.all (fun r => pyStrip (r.getD j "") == "")

/-- The rows after `df.replace({...})`. -/
def replacedRows (t : Table) : List (List String) :=
  t.rows.map (fun r => r.map replaceTok)

/-- The column positions that survive the all-blank mask. -/
def keptCols (t : Table) : List Nat :=
  (List.range t.header.length).filter (fun j => !(colBlank (replacedRows t) j))

/-- `drop_empty_cols_and_fix_nulls(df)`: replace the six null strings by
`""` and drop the columns whose cells are then all blank; empty-axis tables
are returned unchanged. -/
def drop_empty_cols_and_fix_nulls (t : Table) : Table :=
  if t.isEmptyB then t
  else ⟨selCols (keptCols t) t.header, (replacedRows t).map (selCols (keptCols t))⟩

/-! ## `stitch_multipage_tables` -/

/-- `if c not in master_cols: master_cols.append(c)` — exact string
membership. -/
def insLabel (a : List String) (c : String) : List String :=
  if a.contains c then a else a ++ [c]

/-- Master column list: the first table's columns, then every unseen column
of the later tables appended in order (exact string membership). -/
def masterCols (dfs : List Table) : List String :=
  match dfs with
  | [] => []
  | d :: rest => rest.foldl (fun acc t => t.header.foldl insLabel acc) d.header

/-- `df.reindex(columns=master)` on one row: copy the cell of the column
with the same label when present, else `NaN` (read back as `"nan"`). -/
def alignRow (srcH master : List String) (r : List String) : List String :=
  master.map (fun c =>
    match srcH.findIdx? (fun x => x == c) with
    | some i => r.getD i ""
    | none => "nan")

/-- Reindex a whole table onto the master columns. -/
def alignTo (master : List String) (t : Table) : Table :=
  ⟨master, t.rows.map (alignRow t.header master)⟩

/-- `pd.concat(aligned, axis=0, ignore_index=True)`. -/
def concatAligned (master : List String) (dfs : List Table) : Table :=
  ⟨master, dfs.flatMap (fun t => t.rows.map (alignRow t.header master))⟩

/-- Steps 2–6 of the stitcher, in source order (`reset_index` is the
identity in this model). -/
def cleanSteps (t : Table) : Table :=
  drop_empty_cols_and_fix_nulls
    (normalize_headers_with_subcolumns
      (fill_empty_header_with_previous
        (remove_repeated_header_rows
          (remove_rows_with_many_nones t))))

/-- `dfs = [df for df in dfs if df is not None and not df.empty]`. -/
def usableTables (dfs0 : List Table) : List Table :=
  dfs0.filter (fun t => !t.isEmptyB)

/-- Core of `stitch_multipage_tables` once the tables are collected. -/
def stitchCore (dfs0 : List Table) : Table :=
  let dfs := usableTables dfs0
  if dfs.isEmpty then ⟨[], []⟩
  else cleanSteps (concatAligned (masterCols dfs) dfs)

/-- `stitch_multipage_tables` on a list input: entries that are not
DataFrames (`none`) are skipped. -/
def stitchList (raw : List (Option Table)) : Table :=
  stitchCore (raw.filterMap id)

/-- `sorted(raw.keys())` for the dict input. -/
def sortedKeys (raw : List (Nat × Option Table)) : List Nat :=
  List.insertionSort (· ≤ ·) (raw.map Prod.fst)

/-- `raw[k]` when page `k` holds a DataFrame, else nothing. -/
def entryAt (raw : List (Nat × Option Table)) (k : Nat) : Option Table :=
  match raw.lookup k with
  | some (some t) => some t
  | _ => none

/-- The dict branch of the collection:
`[raw[k] for k in sorted(raw.keys()) if isinstance(raw[k], pd.DataFrame)]`,
keeping the key with each collected table. -/
def collectPairs (raw : List (Nat × Option Table)) : List (Nat × Table) :=
  (sortedKeys raw).filterMap (fun k => (entryAt raw k).map (fun t => (k, t)))

/-- `stitch_multipage_tables` on a dict input. -/
def stitchDict (raw : List (Nat × Option Table)) : Table :=
  stitchCore ((collectPairs raw).map Prod.snd)

/-! ## Python dict helpers (association lists, insertion order) -/

/-- Python `d[k] = v`: update the value in place when the key exists,
else append the pair at the end. -/
def dictSet {β : Type} (l : List (String × β)) (k : String) (v : β) : List (String × β) :=
  match l with
  | [] => [(k, v)]
  | (k', v') :: rest => if k' == k then (k, v) :: rest else (k', v') :: dictSet rest k v

/-- Python `d.setdefault(k, []).append(v)`. -/
def setdefaultAppend {β : Type} (l : List (String × List β)) (k : String) (v : β) :
    List (String × List β) :=
  match l with
  | [] => [(k, [v])]
  | (k', vs) :: rest =>
      if k' == k then (k', vs ++ [v]) :: rest else (k', vs) :: setdefaultAppend rest k v

/-- Python `d[k] = f(d[k])` for a key known to be present (no-op when the
key is absent; all call sites guarantee presence). -/
def dictModify {β : Type} (l : List (String × β)) (k : String) (f : β → β) :
    List (String × β) :=
  match l with
  | [] => []
  | (k', v) :: rest => if k' == k then (k', f v) :: rest else (k', v) :: dictModify rest k f

/-! ## `app_1763405179987.py`: analysis helpers -/

/-- `analyze_period(r0, r1)`: zip periods with visits and group the visits
by period with `setdefault`. -/
def analyze_period (r0 r1 : List String) : List (String × List String) :=
  (r0.zip r1).foldl (fun res pv => setdefaultAppend res pv.1 pv.2) []

/-- The cleaning `str(v).replace("\n", " ").strip()` applied to label rows. -/
def cleanLabel (s : String) : String := pyStrip (replNL s)

/-- Presence test of `analyze_row_filled_columns`:
`val not in ["", "nan", "None", "none"]`. -/
def rfPresent (v : String) : Bool := !(["", "nan", "None", "none"].contains v)

/-- One row's mapped visit list: for each data column `1 ≤ c < shape1`
whose stripped cell is present, the visit name at position `c` when the
visit-name list reaches it, else the synthetic label `"col_<c>"`. -/
def mappedVisitsOf (shape1 : Nat) (visitNames : List String) (r : List String) :
    List String :=
  (List.range' 1 (shape1 - 1)).filterMap (fun c =>
    let val := pyStrip (r.getD c "")
    if rfPresent val then
      some (if c < visitNames.length then visitNames.getD c "" else "col_" ++ toString c)
    else none)

/-- The value stored per row label by `analyze_row_filled_columns`:
`{"visits": [...], "count": n}`. -/
structure RFEntry where
  visits : List String
  count : Nat
deriving DecidableEq, Repr

/-- `analyze_row_filled_columns(df, start_row, visit_row)`.  Reading the
visit row raises `IndexError` when `visit_row` is out of bounds; reading a
data row's label cell raises when the table has no columns (the inner cell
reads are wrapped in `try/except` and never fail). -/
def analyze_row_filled_columns (t : Table) (startRow visitRow : Nat) :
    Except String (List (String × RFEntry)) :=
  match t.rows.get? visitRow with
  | none => .error "visit row out of bounds"
  | some vrow =>
      let visitNames := vrow.map cleanLabel
      (t.rows.drop startRow).foldlM
        (fun acc r =>
          if t.header.length == 0 then .error "label column missing"
          else
            let rowName := pyStrip (r.getD 0 "")
            let mapped := mappedVisitsOf t.header.length visitNames r
            .ok (dictSet acc rowName ⟨mapped, mapped.length⟩))
        []

/-- Presence test of `countdots`:
`cell not in ["", " ", "None", "none", "NaN", "nan"]`. -/
def dotPresent (v : String) : Bool := !(["", " ", "None", "none", "NaN", "nan"].contains v)

/-- The value stored per visit by `countdots`: `{"count": n, "rows": [...]}`. -/
structure DotEntry where
  count : Nat
  rows : List String
deriving DecidableEq, Repr

/-- `countdots(df, visit_row)`: count present markers under each visit
column.  The dict comprehension `{v: ... for v in visits}` keeps one entry
per distinct visit name at its first position. -/
def countdots (t : Table) (visitRow : Nat) : Except String (List (String × DotEntry)) :=
  match t.rows.get? visitRow with
  | none => .error "visit row out of bounds"
  | some vrow =>
      let visits := (vrow.drop 1).map cleanLabel
      let total := visits.length
      let res0 := (dedupFirst visits).map (fun v => (v, DotEntry.mk 0 []))
      (t.rows.drop (visitRow + 1)).foldlM
        (fun res r =>
          if t.header.length == 0 then .error "label column missing"
          else
            let rowName := pyStrip (r.getD 0 "")
            let rowValues := r.drop 1
            .ok ((List.range (min rowValues.length total)).foldl
              (fun res j =>
                let cell := pyStrip (rowValues.getD j "")
                if dotPresent cell then
                  dictModify res (visits.getD j "")
                    (fun e => ⟨e.count + 1, e.rows ++ [rowName]⟩)
                else res)
              res))
        res0

/-! ### The Streamlit analysis layer

The app runs three analysis blocks over the stitched table, each inside its
own `try/except` that reports a warning and lets the next block run
(`app_1763405179987.py` lines 311–364), with `period_row_index = 0` and
`visit_row_index = 4`, `start_row = 5`. -/

/-- The period-analysis block: read rows 0 and 4 (slices from column 1),
clean them, and group. -/
def appPeriodBlock (t : Table) : Except String (List (String × List String)) :=
  match t.rows.get? 0, t.rows.get? 4 with
  | some row0, some row4 =>
      .ok (analyze_period ((row0.drop 1).map cleanLabel) ((row4.drop 1).map cleanLabel))
  | _, _ => .error "row index out of bounds"

/-- Output of the three analysis blocks: one optional result per block plus
the warnings issued for the failed ones, in block order. -/
structure EngineOut where
  period : Option (List (String × List String))
  mapping : Option (List (String × RFEntry))
  dots : Option (List (String × DotEntry))
  warnings : List String
deriving DecidableEq, Repr

/-- The three sequential `try/except` blocks of the app. -/
def runEngine (t : Table) : EngineOut :=
  let (p, w1) :=
    match appPeriodBlock t with
    | .ok v => (some v, [])
    | .error e => (none, ["Period analysis failed: " ++ e])
  let (m, w2) :=
    match analyze_row_filled_columns t 5 4 with
    | .ok v => (some v, w1)
    | .error e => (none, w1 ++ ["Sample->Visit analysis failed: " ++ e])
  let (d, w3) :=
    match countdots t 4 with
    | .ok v => (some v, w2)
    | .error e => (none, w2 ++ ["Dot count analysis failed: " ++ e])
  ⟨p, m, d, w3⟩

/-! ## `main.py`: `generate_analytics` -/

/-- Presence test used throughout `generate_analytics`:
`val not in ["", "nan", "None", "none"]`. -/
def mainPresent (v : String) : Bool := !(["", "nan", "None", "none"].contains v)

/-- The analytics record assembled by `generate_analytics`
(`meaningOverrides`, imported from the OCR module, is external to the core
and not modelled). -/
structure MainAnalytics where
  visitFrequency : List (String × Nat)
  periodAnalysis : List (String × List String)
  assessmentsByVisit : List (String × List String × Nat)
  totalVisits : Nat
  totalAssessments : Nat
deriving DecidableEq, Repr

/-- `generate_analytics(df)` from `main.py`: `None` for a `None`/empty
table; all three aggregations are computed only under the single guard
`df.shape[0] > 4`, with hard-coded `visit_row_index = 4`, period row 0 and
data rows from index 5; no exception can escape the guard, so the enclosing
`try/except` never fires. -/
def generate_analytics (t : Table) : Option MainAnalytics :=
  if t.isEmptyB then none
  else some (
    if 4 < t.rows.length then
      let vrow := t.rows.getD 4 []
      let visitNames :=
        ((vrow.drop 1).map pyStrip).filter
          (fun v => !(v == "") && !(["nan", "None", ""].contains v))
      let shape1 := t.header.length
      let colRange := List.range' 1 (shape1 - 1)
      let dataRows := t.rows.drop 5
      let vf := colRange.foldl
        (fun acc c =>
          if c - 1 < visitNames.length then
            dictSet acc (visitNames.getD (c - 1) "")
              (dataRows.countP (fun r => mainPresent (pyStrip (r.getD c ""))))
          else acc)
        []
      let prow := ((t.rows.getD 0 []).drop 1).map pyStrip
      let pa := prow.enum.foldl
        (fun acc ip =>
          if ip.1 < visitNames.length && !(ip.2 == "") && !(["nan", "None", ""].contains ip.2)
          then setdefaultAppend acc ip.2 (visitNames.getD ip.1 "")
          else acc)
        []
      let abv := colRange.foldl
        (fun acc c =>
          if c - 1 < visitNames.length then
            let assessments := dataRows.filterMap (fun r =>
              if mainPresent (pyStrip (r.getD c "")) then
                let rowName := pyStrip (r.getD 0 "")
                if !(rowName == "") && !(["", "nan", "None"].contains rowName)
                then some rowName else none
              else none)
            if assessments.isEmpty then acc
            else acc ++ [(visitNames.getD (c - 1) "", assessments, assessments.length)]
          else acc)
        []
      ⟨vf, pa, abv, visitNames.length, t.rows.length - 4 - 1⟩
    else ⟨[], [], [], 0, 0⟩)

/-! ## Spec-side definitions used to compare the code against the claims -/

/-- The super-schema as the specification words it (claim C1): ordered
union of the headers with case-insensitive dedup applied at insertion,
first-seen casing canonical. -/
def specSuperSchemaCI (hs : List (List String)) : List String :=
  hs.foldl
    (fun acc h =>
      h.foldl (fun a c => if a.any (fun x => pyLower x == pyLower c) then a else a ++ [c]) acc)
    []

/-- The null-like tokens as the specification words them (claims C4/C9):
`""`, `"none"`, `"null"`, `"nan"`, case-insensitive. -/
def claimNullLike (s : String) : Bool :=
  ["", "none", "null", "nan"].contains (pyLower s)

/-! ## Claim C1 — super-schema construction -/

/-- C1 counterexample.  The claim says the super-schema deduplicates column
labels case-insensitively and that a grid's missing columns are filled with
`""`.  On the two grids with headers `["Visit"]` and `["visit"]` the code
keeps both labels (exact-match dedup only), and reindexing fills the
missing column with NaN (the string `"nan"`), not `""`. -/
theorem c1_counterexample :
    masterCols [⟨["Visit"], [["a"]]⟩, ⟨["visit"], [["b"]]⟩] = ["Visit", "visit"]
    ∧ specSuperSchemaCI [["Visit"], ["visit"]] = ["Visit"]
    ∧ masterCols [⟨["Visit"], [["a"]]⟩, ⟨["visit"], [["b"]]⟩]
        ≠ specSuperSchemaCI [["Visit"], ["visit"]]
    ∧ alignRow ["Visit"] ["Visit", "visit"] ["a"] = ["a", "nan"]
    ∧ ("nan" : String) ≠ "" :=
  ⟨by decide, by decide, by decide, by decide, by decide⟩

/-! ## Claim C2 — lossless alignment -/

/-- C2: code bug.  `remove_repeated_header_rows` normalises a copy of the
table "so comparison is reliable" but then returns the normalised rows, so
a surviving non-blank cell is not preserved: stitching the single grid with
row `["Hello", "y", "z"]` yields the cell `"hello"`, not `"Hello"`. -/
theorem c2_cell_altered :
    stitchList [some ⟨["A", "B", "C"], [["Hello", "y", "z"]]⟩]
      = ⟨["A", "B", "C"], [["hello", "y", "z"]]⟩
    ∧ ("hello" : String) ≠ "Hello" :=
  ⟨by decide, by decide⟩

/-! ## Claim C3 — duplicate-column merge -/

/-- C3: code bug.  `normalize_headers_with_subcolumns` records
`seen[key] = len(new_cols)` (a position in the deduplicated column list)
but uses it as `df.iloc[:, prev_idx]` (a position in the full table).  With
header `["A", "a", "B", "b"]` and the single row `["", "x", "", "y"]`,
column `b` is merged into original position 1 (column `a`) instead of
column `B`: the result keeps `""` for `B` and the value `"y"` is lost,
whereas the claim requires the merged `B` column to hold `"y"`. -/
theorem c3_wrong_merge_target :
    normalize_headers_with_subcolumns ⟨["A", "a", "B", "b"], [["", "x", "", "y"]]⟩
      = ⟨["A", "B"], [["x", ""]]⟩
    ∧ ("" : String) ≠ "y" :=
  ⟨by decide, by decide⟩

/-! ## Claim C4 — null-heavy row removal -/

/-- C4 counterexample.  The claim counts `""` (and any casing of the null
tokens) as null-like; the code tests exact membership in the six strings
`["None", "none", "NULL", "null", "nan", "NaN"]` only.  The row
`["NONE", ""]` is 100% null-like per the claim (≥ 0.5, so it must be
dropped) yet the code keeps it unchanged. -/
theorem c4_counterexample :
    remove_rows_with_many_nones ⟨["A", "B"], [["NONE", ""]]⟩
      = ⟨["A", "B"], [["NONE", ""]]⟩
    ∧ 2 * (["NONE", ""].countP claimNullLike) ≥ 2 :=
  ⟨by decide, by decide⟩

/-! ## Claim C5 — analytics failure isolation -/

/-- C5 counterexample.  In `main.py`, `generate_analytics` computes all
aggregations under the single guard `df.shape[0] > 4` and attaches no
per-aggregation error: on a 4-row table (visit row out of bounds, a
schema-assumption violation the claim says must be reported as a
recoverable error for the affected aggregation) it returns exactly the
same silently-empty analytics as a successful run on a 5-row table whose
visit row is merely blank — no aggregation is annotated with a reason, and
the period aggregation is suppressed by the visit-row guard as well. -/
theorem c5_counterexample :
    generate_analytics ⟨["H1", "H2"], [["p", "Induction"], ["r1", "x"], ["r2", "y"], ["r3", "z"]]⟩
      = generate_analytics
          ⟨["H1", "H2"],
           [["p", "Induction"], ["r1", "x"], ["r2", "y"], ["r3", "z"], ["lbl", ""]]⟩
    ∧ (⟨["H1", "H2"], [["p", "Induction"], ["r1", "x"], ["r2", "y"], ["r3", "z"]]⟩ : Table).rows.length = 4
    ∧ (⟨["H1", "H2"],
        [["p", "Induction"], ["r1", "x"], ["r2", "y"], ["r3", "z"], ["lbl", ""]]⟩ : Table).rows.length = 5 :=
  ⟨by decide, by decide, by decide⟩

/-! ## Claim C6 — idempotence of steps 2–6 -/

set_option maxHeartbeats 1000000 in
/-- C6 counterexample.  `cleanSteps` (steps 2–6) is not idempotent on its
own output: on the table with header `["a","b","c"]` and rows
`[["x","","y"], ["x","x","y"]]`, header-blank repair turns row 0 into
`["x","x","y"]`, a duplicate of row 1 that survives the first pass; the
second pass's duplicate-row removal then drops it, so re-applying steps
2–6 to the already-cleaned table changes it. -/
theorem c6_counterexample :
    cleanSteps (cleanSteps ⟨["a", "b", "c"], [["x", "", "y"], ["x", "x", "y"]]⟩)
      ≠ cleanSteps ⟨["a", "b", "c"], [["x", "", "y"], ["x", "x", "y"]]⟩ := by
  decide

/-! ## Claim C9 — null normalization closure -/

/-- C9 counterexample.  When every row is removed by the earlier steps, the
final step's empty-axis early return keeps the (vacuously all-blank)
columns: stitching the single grid `[["None","None"]]` with header
`["A","B"]` yields a table with no rows but with both columns retained,
although the claim requires every column whose cells are all
blank/whitespace-only to be dropped. -/
theorem c9_counterexample :
    stitchList [some ⟨["A", "B"], [["None", "None"]]⟩] = ⟨["A", "B"], []⟩
    ∧ (⟨["A", "B"], ([] : List (List String))⟩ : Table).header ≠ [] :=
  ⟨by decide, by decide⟩

/-! ## Helper lemmas -/

/-- Result of an `Except` as an `Option`. -/
def exceptToOption {ε α : Type} : Except ε α → Option α
  | .ok a => some a
  | .error _ => none

/-- Success test of an `Except`. -/
def exceptIsOk {ε α : Type} : Except ε α → Bool
  | .ok _ => true
  | .error _ => false

theorem dropWhile_dropWhile {α : Type} (p : α → Bool) (l : List α) :
    (l.dropWhile p).dropWhile p = l.dropWhile p := by
  induction l with
  | nil => rfl
  | cons a t ih =>
      by_cases h : p a
      · simp [List.dropWhile_cons, h, ih]
      · simp [List.dropWhile_cons, h]

theorem dropWhile_head_false {α : Type} (p : α → Bool) (l : List α) (a : α) (t : List α)
    (h : l.dropWhile p = a :: t) : p a = false := by
  induction l with
  | nil => simp at h
  | cons b s ih =>
      by_cases hb : p b
      · rw [List.dropWhile_cons, if_pos hb] at h
        exact ih h
      · rw [List.dropWhile_cons, if_neg hb] at h
        cases h
        simpa using hb

theorem dropWhile_suffix {α : Type} (p : α → Bool) (l : List α) :
    l.dropWhile p <:+ l := by
  induction l with
  | nil => simp
  | cons a t ih =>
      by_cases h : p a
      · rw [List.dropWhile_cons, if_pos h]
        exact ih.trans (List.suffix_cons a t)
      · rw [List.dropWhile_cons, if_neg h]

theorem trimData_idem (l : List Char) : trimData (trimData l) = trimData l := by
  unfold trimData
  set p := Char.isWhitespace
  set u := l.dropWhile p with hu
  set w := u.reverse.dropWhile p with hw
  cases hwc : w with
  | nil => simp [hwc]
  | cons a s =>
      have hpref : w.reverse <+: u := by
        have hsuf : w <:+ u.reverse := hw ▸ dropWhile_suffix p u.reverse
        have := List.reverse_prefix.mpr (by simpa using hsuf)
        simpa using this
      have hua : ∃ t, u = (a :: s).reverse ++ t := by
        obtain ⟨t, ht⟩ := hpref
        exact ⟨t, by rw [← ht, hwc]⟩
      have hhead : ∀ b ∈ w, b = a → p b = false := by
        intro b _ hb
        subst hb
        exact dropWhile_head_false p u.reverse b s (by rw [← hwc, hw])
      -- the reversed kept part starts with the head of u, which fails p
      have hDropRev : w.reverse.dropWhile p = w.reverse := by
        obtain ⟨t, ht⟩ := hua
        have hu0 : ∃ b l2, u = b :: l2 ∧ p b = false := by
          rcases hu2 : u with _ | ⟨b, l2⟩
          · rw [hu2] at ht
            simp [hwc] at ht
          · exact ⟨b, l2, rfl, dropWhile_head_false p l b l2 (by rw [← hu2, hu])⟩
        obtain ⟨b, l2, hbu, hpb⟩ := hu0
        have : w.reverse = [] ∨ ∃ rest, w.reverse = b :: rest := by
          rcases hwr : w.reverse with _ | ⟨c, rest⟩
          · exact Or.inl rfl
          · refine Or.inr ⟨rest, ?_⟩
            have h1 : (a :: s).reverse = c :: rest := by rw [← hwc, hwr]
            have h2 : u = c :: (rest ++ t) := by rw [ht, h1]; rfl
            rw [hbu] at h2
            injection h2 with hcb _
            rw [hcb]
        rcases this with hnil | ⟨rest, hcons⟩
        · simp [hnil]
        · rw [hcons, List.dropWhile_cons, if_neg (by simp [hpb])]
      rw [← hwc]
      rw [hDropRev, List.reverse_reverse]
      have : w.dropWhile p = w := by
        rw [hw]
        exact dropWhile_dropWhile p u.reverse
      rw [this]

theorem pyStrip_idem (s : String) : pyStrip (pyStrip s) = pyStrip s := by
  unfold pyStrip
  exact congrArg String.mk (trimData_idem s.data)

theorem pyStrip_empty : pyStrip "" = "" := rfl

/-- Evaluating a list element list through `getD` over its index range
reconstructs the list. -/
theorem map_getD_range {α : Type} (l : List α) (d : α) :
    (List.range l.length).map (fun i => l.getD i d) = l := by
  apply List.ext_getElem
  · simp
  · intro i h1 h2
    simp [List.getD_eq_getElem?_getD, List.getElem?_eq_getElem h2]


theorem replaceTok_idem (c : String) : replaceTok (replaceTok c) = replaceTok c := by
  by_cases h : sixTokens.contains c = true
  · have h1 : replaceTok c = "" := by rw [replaceTok, if_pos h]
    rw [h1]
    decide
  · have h1 : replaceTok c = c := by rw [replaceTok, if_neg h]
    rw [h1]
    exact h1

/-! Shape equations for the cleaning steps. -/

theorem remove_rows_eq_empty (t : Table) (h : t.isEmptyB = true) :
    remove_rows_with_many_nones t = t := by
  rw [remove_rows_with_many_nones, if_pos h]

theorem remove_rows_eq (t : Table) (h : t.isEmptyB = false) :
    remove_rows_with_many_nones t = ⟨t.header, t.rows.filter rowKeep⟩ := by
  rw [remove_rows_with_many_nones, if_neg (by simp [h])]

theorem fill_empty_eq_empty (t : Table) (h : t.isEmptyB = true) :
    fill_empty_header_with_previous t = t := by
  rw [fill_empty_header_with_previous, if_pos h]

theorem fill_empty_eq (t : Table) (h : t.isEmptyB = false) :
    fill_empty_header_with_previous t = ⟨t.header, mapHead (fillHeaderVals "") t.rows⟩ := by
  rw [fill_empty_header_with_previous, if_neg (by simp [h])]

theorem drop_empty_eq_empty (t : Table) (h : t.isEmptyB = true) :
    drop_empty_cols_and_fix_nulls t = t := by
  rw [drop_empty_cols_and_fix_nulls, if_pos h]

theorem drop_empty_eq (t : Table) (h : t.isEmptyB = false) :
    drop_empty_cols_and_fix_nulls t
      = ⟨selCols (keptCols t) t.header, (replacedRows t).map (selCols (keptCols t))⟩ := by
  rw [drop_empty_cols_and_fix_nulls, if_neg (by simp [h])]

/-- Step 2 is idempotent on every table. -/
theorem remove_rows_idem (t : Table) :
    remove_rows_with_many_nones (remove_rows_with_many_nones t)
      = remove_rows_with_many_nones t := by
  cases h : t.isEmptyB with
  | true => rw [remove_rows_eq_empty t h, remove_rows_eq_empty t h]
  | false =>
      rw [remove_rows_eq t h]
      cases h2 : (Table.mk t.header (t.rows.filter rowKeep)).isEmptyB with
      | true => rw [remove_rows_eq_empty _ h2]
      | false =>
          rw [remove_rows_eq _ h2]
          have : (Table.mk t.header (t.rows.filter rowKeep)).rows.filter rowKeep
              = t.rows.filter rowKeep := by
            apply List.filter_eq_self.mpr
            intro r hr
            exact List.of_mem_filter hr
          rw [this]

theorem fillHeaderVals_cons (last v : String) (vs : List String) :
    fillHeaderVals last (v :: vs) =
      if headerBlank (pyStrip (pyStrip v)) then last :: fillHeaderVals last vs
      else pyStrip (pyStrip v) :: fillHeaderVals (pyStrip (pyStrip v)) vs := rfl

/-- The header-fill pass is idempotent for any starting value that is
either empty or a stable, non-null-like stripped value. -/
theorem fillHeaderVals_idem (vs : List String) :
    ∀ last, (last = "" ∨ (pyStrip (pyStrip last) = last ∧ headerBlank last = false)) →
      fillHeaderVals last (fillHeaderVals last vs) = fillHeaderVals last vs := by
  induction vs with
  | nil => intro last _; rfl
  | cons v rest ih =>
      intro last hlast
      rw [fillHeaderVals_cons]
      by_cases hb : headerBlank (pyStrip (pyStrip v)) = true
      · rw [if_pos hb, fillHeaderVals_cons]
        rcases hlast with h0 | ⟨hs, hnb⟩
        · subst h0
          rw [if_pos (by decide)]
          exact congrArg _ (ih "" (Or.inl rfl))
        · rw [hs, if_neg (by simp [hnb])]
          exact congrArg _ (ih last (Or.inr ⟨hs, hnb⟩))
      · rw [if_neg hb, fillHeaderVals_cons]
        have hss : pyStrip (pyStrip (pyStrip (pyStrip v))) = pyStrip (pyStrip v) := by
          rw [pyStrip_idem, pyStrip_idem]
        rw [hss, if_neg hb]
        exact congrArg _ (ih (pyStrip (pyStrip v)) (Or.inr ⟨hss, by simpa using hb⟩))

/-- Step 4 is idempotent on every table. -/
theorem fill_empty_header_idem (t : Table) :
    fill_empty_header_with_previous (fill_empty_header_with_previous t)
      = fill_empty_header_with_previous t := by
  cases h : t.isEmptyB with
  | true => rw [fill_empty_eq_empty t h, fill_empty_eq_empty t h]
  | false =>
      rw [fill_empty_eq t h]
      have h2 : (Table.mk t.header (mapHead (fillHeaderVals "") t.rows)).isEmptyB = false := by
        simp only [Table.isEmptyB, Bool.or_eq_false_iff] at h ⊢
        refine ⟨?_, h.2⟩
        cases hr : t.rows with
        | nil => rw [hr] at h; simp at h
        | cons r rs => simp [mapHead]
      rw [fill_empty_eq _ h2]
      have : mapHead (fillHeaderVals "")
            (Table.mk t.header (mapHead (fillHeaderVals "") t.rows)).rows
          = mapHead (fillHeaderVals "") t.rows := by
        cases hr : t.rows with
        | nil => rfl
        | cons r rs =>
            simp only [mapHead]
            rw [fillHeaderVals_idem r "" (Or.inl rfl)]
      rw [this]

theorem replaceTok_getD (r : List String) (j : Nat) :
    replaceTok ((r.map replaceTok).getD j "") = (r.map replaceTok).getD j "" := by
  by_cases hj : j < (r.map replaceTok).length
  · rw [List.getD_eq_getElem?_getD, List.getElem?_eq_getElem hj]
    simp only [Option.getD_some, List.getElem_map]
    exact replaceTok_idem _
  · rw [List.getD_eq_getElem?_getD, List.getElem?_eq_none (by omega)]
    decide

/-- Replacing a second time changes nothing. -/
theorem replacedRows_stable (t : Table) (K : List Nat) :
    ((replacedRows t).map (selCols K)).map (fun r => r.map replaceTok)
      = (replacedRows t).map (selCols K) := by
  rw [replacedRows]
  simp only [List.map_map]
  apply List.map_congr_left
  intro r _
  simp only [Function.comp, selCols, List.map_map]
  apply List.map_congr_left
  intro j _
  simp only [Function.comp]
  exact replaceTok_getD r j

/-- Reading position `j` of a selected row is reading position `K j` of the
original row. -/
theorem selCols_getD (K : List Nat) (r : List String) (j : Nat) (hj : j < K.length) :
    (selCols K r).getD j "" = r.getD (K.getD j 0) "" := by
  have hK : K.getD j 0 = K[j] := by
    rw [List.getD_eq_getElem?_getD, List.getElem?_eq_getElem hj]
    rfl
  rw [selCols, hK]
  rw [List.getD_eq_getElem?_getD, List.getElem?_eq_getElem (by simpa using hj)]
  simp only [Option.getD_some, List.getElem_map]

/-- A column is not blank exactly when some row has a non-blank cell there. -/
theorem colBlank_false_iff (rows : List (List String)) (j : Nat) :
    colBlank rows j = false ↔ ∃ r ∈ rows, pyStrip (r.getD j "") ≠ "" := by
  rw [colBlank, Bool.eq_false_iff]
  simp [List.all_eq_true]

/-- Step 6 is idempotent on every table. -/
theorem drop_empty_cols_idem (t : Table) :
    drop_empty_cols_and_fix_nulls (drop_empty_cols_and_fix_nulls t)
      = drop_empty_cols_and_fix_nulls t := by
  cases h : t.isEmptyB with
  | true => rw [drop_empty_eq_empty t h, drop_empty_eq_empty t h]
  | false =>
      rw [drop_empty_eq t h]
      set K := keptCols t with hK
      set T := Table.mk (selCols K t.header) ((replacedRows t).map (selCols K)) with hT
      cases h2 : T.isEmptyB with
      | true => rw [drop_empty_eq_empty T h2]
      | false =>
          rw [drop_empty_eq T h2]
          have hTrows : T.rows = (replacedRows t).map (selCols K) := by rw [hT]
          have hTheader : T.header = selCols K t.header := by rw [hT]
          have hrepl : replacedRows T = T.rows := by
            rw [replacedRows, hTrows]
            exact replacedRows_stable t K
          have hlenH : T.header.length = K.length := by
            rw [hTheader, selCols]
            simp
          have hkeep2 : keptCols T = List.range T.header.length := by
            rw [keptCols, hrepl]
            apply List.filter_eq_self.mpr
            intro j hj
            have hjlt : j < K.length := by
              rw [← hlenH]
              exact List.mem_range.mp hj
            have hjk : K.getD j 0 ∈ K := by
              rw [List.getD_eq_getElem?_getD, List.getElem?_eq_getElem hjlt]
              exact List.getElem_mem hjlt
            have hcol : colBlank (replacedRows t) (K.getD j 0) = false := by
              have hmem := hjk
              rw [hK, keptCols, List.mem_filter] at hmem
              simpa using hmem.2
            obtain ⟨r1, hr1mem, hr1ne⟩ := (colBlank_false_iff _ _).mp hcol
            have hblank2 : colBlank T.rows j = false := by
              rw [colBlank_false_iff]
              refine ⟨selCols K r1, ?_, ?_⟩
              · rw [hTrows]
                exact List.mem_map_of_mem _ hr1mem
              · rw [selCols_getD K r1 j hjlt]
                exact hr1ne
            simp [hblank2]
          rw [hkeep2]
          have hfin1 : selCols (List.range T.header.length) T.header = T.header := by
            rw [selCols]
            exact map_getD_range _ ""
          have hfin2 : T.rows.map (selCols (List.range T.header.length)) = T.rows := by
            conv_rhs => rw [← List.map_id T.rows]
            apply List.map_congr_left
            intro r hr
            have hrlen : r.length = T.header.length := by
              rw [hTrows] at hr
              obtain ⟨r0, _, hr0⟩ := List.mem_map.mp hr
              rw [← hr0, selCols, hlenH]
              simp
            rw [selCols, ← hrlen]
            exact map_getD_range _ ""
          rw [hfin1, hrepl, hfin2]

/-- C6 (amended): steps 2–6 are not idempotent as a composite — see the
counterexample, where header-blank repair duplicates a row that the second
pass's dedup removes — but the individual steps 2 (null-heavy row removal),
4 (header-blank repair) and 6 (null normalization + empty-column drop) are
each idempotent on every table. -/
theorem c6_individual_steps_idempotent :
    (∀ t : Table, remove_rows_with_many_nones (remove_rows_with_many_nones t)
        = remove_rows_with_many_nones t)
    ∧ (∀ t : Table, fill_empty_header_with_previous (fill_empty_header_with_previous t)
        = fill_empty_header_with_previous t)
    ∧ (∀ t : Table, drop_empty_cols_and_fix_nulls (drop_empty_cols_and_fix_nulls t)
        = drop_empty_cols_and_fix_nulls t) :=
  ⟨remove_rows_idem, fill_empty_header_idem, drop_empty_cols_idem⟩

/-- C5 (amended): in the Streamlit analysis layer the three analyses are
isolated — each output slot equals the standalone computation of that
analysis regardless of the other blocks, and each failed block contributes
exactly one warning (its recoverable error report).  The server's
`generate_analytics` has no such isolation (see the counterexample). -/
theorem c5_engine_isolation (t : Table) :
    (runEngine t).period = exceptToOption (appPeriodBlock t)
    ∧ (runEngine t).mapping = exceptToOption (analyze_row_filled_columns t 5 4)
    ∧ (runEngine t).dots = exceptToOption (countdots t 4)
    ∧ (runEngine t).warnings.length
        = ((if exceptIsOk (appPeriodBlock t) then 0 else 1)
            + (if exceptIsOk (analyze_row_filled_columns t 5 4) then 0 else 1)
            + (if exceptIsOk (countdots t 4) then 0 else 1)) := by
  cases h1 : appPeriodBlock t <;>
    cases h2 : analyze_row_filled_columns t 5 4 <;>
      cases h3 : countdots t 4 <;>
        simp [runEngine, h1, h2, h3, exceptToOption, exceptIsOk]

/-- C4 (amended): an empty-axis table (zero rows or zero columns) is
returned unchanged — in particular rows of a zero-column table are kept,
not dropped; otherwise a row survives iff its fraction of cells exactly
equal to one of the six null strings (`"None"`, `"none"`, `"NULL"`,
`"null"`, `"nan"`, `"NaN"`; the empty string and other casings do not
count) is below 1/2, each row judged independently and in order. -/
theorem c4_row_removal (t : Table) :
    ((t.rows = [] ∨ t.header = []) → remove_rows_with_many_nones t = t)
    ∧ (t.rows ≠ [] → t.header ≠ [] →
        (remove_rows_with_many_nones t).header = t.header
        ∧ (remove_rows_with_many_nones t).rows.Sublist t.rows
        ∧ (∀ r, r ∈ (remove_rows_with_many_nones t).rows ↔
            (r ∈ t.rows ∧ r ≠ []
              ∧ 2 * (r.filter (fun c => c ∈ sixTokens)).length < r.length))) := by
  constructor
  · intro h
    apply remove_rows_eq_empty
    rcases h with h | h <;> simp [Table.isEmptyB, h]
  · intro h1 h2
    have hne : t.isEmptyB = false := by
      simp [Table.isEmptyB, h1, h2]
    rw [remove_rows_eq t hne]
    refine ⟨rfl, List.filter_sublist _, ?_⟩
    intro r
    simp only [List.mem_filter]
    constructor
    · rintro ⟨hmem, hkeep⟩
      refine ⟨hmem, ?_, ?_⟩
      · simp only [rowKeep, Bool.and_eq_true, Bool.not_eq_true', beq_eq_false_iff_ne] at hkeep
        intro hnil
        exact hkeep.1 (by rw [hnil]; rfl)
      · simp only [rowKeep, Bool.and_eq_true, decide_eq_true_eq] at hkeep
        rw [← List.countP_eq_length_filter] at *
        convert hkeep.2 using 2
        rw [rowNoneCount]
        apply List.countP_congr
        intro c _
        simp [List.elem_eq_mem]
    · rintro ⟨hmem, hnil, hlt⟩
      refine ⟨hmem, ?_⟩
      simp only [rowKeep, Bool.and_eq_true, Bool.not_eq_true', decide_eq_true_eq]
      refine ⟨by simpa using (fun hz => hnil (List.length_eq_zero.mp hz)), ?_⟩
      rw [← List.countP_eq_length_filter] at hlt
      convert hlt using 2
      rw [rowNoneCount]
      apply List.countP_congr
      intro c _
      simp [List.elem_eq_mem]

/-- Witness for the C4 theorem at a concrete table. -/
theorem c4_row_removal_witness :
    (⟨["A", "B"], [["x", "y"], ["None", "None"]]⟩ : Table).rows ≠ []
    ∧ (⟨["A", "B"], [["x", "y"], ["None", "None"]]⟩ : Table).header ≠ []
    ∧ (["x", "y"]
        ∈ (remove_rows_with_many_nones ⟨["A", "B"], [["x", "y"], ["None", "None"]]⟩).rows ↔
        (["x", "y"] ∈ (⟨["A", "B"], [["x", "y"], ["None", "None"]]⟩ : Table).rows
          ∧ ["x", "y"] ≠ ([] : List String)
          ∧ 2 * ((["x", "y"] : List String).filter (fun c => c ∈ sixTokens)).length
              < (["x", "y"] : List String).length)) :=
  ⟨by decide, by decide,
    ((c4_row_removal ⟨["A", "B"], [["x", "y"], ["None", "None"]]⟩).2
      (by decide) (by decide)).2.2 ["x", "y"]⟩

/-! ## Lemmas about the Python dict model -/

theorem lookup_cons {α β : Type} [BEq α] (a k : α) (v : β) (rest : List (α × β)) :
    List.lookup a ((k, v) :: rest) = if a == k then some v else List.lookup a rest := by
  cases h : a == k <;> simp [List.lookup, h]

theorem lookup_dictSet {β : Type} (l : List (String × β)) (k : String) (v : β) (k2 : String) :
    (dictSet l k v).lookup k2 = if k2 == k then some v else l.lookup k2 := by
  induction l with
  | nil => rw [dictSet, lookup_cons]
  | cons p rest ih =>
      obtain ⟨k1, v1⟩ := p
      rw [dictSet]
      by_cases h1 : k1 == k
      · rw [if_pos h1, lookup_cons, lookup_cons]
        by_cases h2 : k2 == k
        · rw [if_pos h2, if_pos h2]
        · rw [if_neg h2, if_neg h2]
          have hne : (k2 == k1) = false := by
            have e1 : k1 = k := by simpa using h1
            rw [e1]
            simpa using h2
          rw [hne]
          simp
      · rw [if_neg h1, lookup_cons, lookup_cons]
        by_cases h2 : k2 == k1
        · rw [if_pos h2, if_pos h2]
          have e2 : k2 = k1 := by simpa using h2
          have : (k2 == k) = false := by
            rw [e2]
            simpa using h1
          rw [this]
          simp
        · rw [if_neg h2, if_neg h2, ih]

theorem keys_dictSet_mem {β : Type} (l : List (String × β)) (k : String) (v : β) (a : String)
    (h : a ∈ (dictSet l k v).map Prod.fst) : a ∈ l.map Prod.fst ∨ a = k := by
  induction l with
  | nil =>
      rw [dictSet] at h
      simp at h
      exact Or.inr h
  | cons p rest ih =>
      obtain ⟨k1, v1⟩ := p
      rw [dictSet] at h
      by_cases h1 : k1 == k
      · rw [if_pos h1] at h
        simp at h
        rcases h with h | h
        · exact Or.inr h
        · exact Or.inl (by simp [h])
      · rw [if_neg h1] at h
        simp at h
        rcases h with h | h
        · exact Or.inl (by simp [h])
        · rcases ih (by simpa using h) with h2 | h2
          · exact Or.inl (by simp; right; simpa using h2)
          · exact Or.inr h2

theorem keys_dictSet_nodup {β : Type} (l : List (String × β)) (k : String) (v : β)
    (h : (l.map Prod.fst).Nodup) : ((dictSet l k v).map Prod.fst).Nodup := by
  induction l with
  | nil => simp [dictSet]
  | cons p rest ih =>
      obtain ⟨k1, v1⟩ := p
      simp only [List.map_cons, List.nodup_cons] at h
      rw [dictSet]
      by_cases h1 : k1 == k
      · rw [if_pos h1]
        simp only [List.map_cons, List.nodup_cons]
        have e1 : k1 = k := by simpa using h1
        exact ⟨by rw [← e1]; exact h.1, h.2⟩
      · rw [if_neg h1]
        simp only [List.map_cons, List.nodup_cons]
        refine ⟨?_, ih h.2⟩
        intro hmem
        rcases keys_dictSet_mem rest k v k1 hmem with h2 | h2
        · exact h.1 h2
        · exact absurd (by simp [h2]) h1

/-- Folding Python dict assignments: the lookup of a key returns the value
attached to the last element carrying that key (earlier values are
overwritten), falling back to the initial dict. -/
theorem foldl_dictSet_lookup {γ β : Type} (key : γ → String) (val : γ → β)
    (xs : List γ) (name : String) :
    ∀ acc, (xs.foldl (fun a x => dictSet a (key x) (val x)) acc).lookup name
      = (((xs.filter (fun x => key x == name)).getLast?.map val).or (acc.lookup name)) := by
  induction xs with
  | nil => intro acc; simp
  | cons x xs ih =>
      intro acc
      rw [List.foldl_cons, ih, lookup_dictSet, List.filter_cons]
      by_cases hx : (key x == name) = true
      · rw [if_pos hx]
        have hsymm : (name == key x) = true := by
          have : key x = name := by simpa using hx
          simp [this]
        rw [if_pos hsymm]
        cases hfx : xs.filter (fun x => key x == name) with
        | nil => simp
        | cons y ys =>
            rw [List.getLast?_cons_cons]
            cases hlast : (y :: ys).getLast? with
            | none => simp at hlast
            | some z => simp [hlast]
      · rw [if_neg hx]
        have hsymm : (name == key x) = false := by
          have : ¬ key x = name := by simpa using hx
          simpa using fun h => this h.symm
        rw [hsymm]
        simp

/-- A monadic fold whose body always succeeds is the pure fold. -/
theorem foldlM_ok {γ β : Type} (g : β → γ → β) (l : List γ) :
    ∀ init : β,
      (l.foldlM (fun acc x => (Except.ok (g acc x) : Except String β)) init)
        = .ok (l.foldl g init) := by
  induction l with
  | nil => intro init; rfl
  | cons x xs ih =>
      intro init
      rw [List.foldlM_cons, List.foldl_cons]
      exact ih (g init x)

/-- The per-row record stored by `analyze_row_filled_columns`. -/
def rfEntryOf (t : Table) (v : Nat) (r : List String) : RFEntry :=
  let visitNames := (t.rows.getD v []).map cleanLabel
  let mapped := mappedVisitsOf t.header.length visitNames r
  ⟨mapped, mapped.length⟩

/-- The dict built by `analyze_row_filled_columns` when no access fails. -/
def rfModel (t : Table) (s v : Nat) : List (String × RFEntry) :=
  (t.rows.drop s).foldl
    (fun acc r => dictSet acc (pyStrip (r.getD 0 "")) (rfEntryOf t v r)) []

/-- With the visit row in bounds and at least one column,
`analyze_row_filled_columns` succeeds and computes `rfModel`. -/
theorem analyze_rfc_ok (t : Table) (s v : Nat) (hv : v < t.rows.length)
    (hc : t.header ≠ []) :
    analyze_row_filled_columns t s v = .ok (rfModel t s v) := by
  have hsome : t.rows.get? v = some (t.rows.getD v []) := by
    rw [List.get?_eq_getElem?, List.getElem?_eq_getElem hv, List.getD_eq_getElem?_getD,
      List.getElem?_eq_getElem hv]
    rfl
  have hcond : (t.header.length == 0) = false := by
    simp [List.length_eq_zero, hc]
  rw [analyze_row_filled_columns, hsome]
  simp only [hcond, Bool.false_eq_true, if_false]
  exact foldlM_ok _ _ _

theorem foldl_dictSet_nodup {γ β : Type} (key : γ → String) (val : γ → β) (xs : List γ) :
    ∀ acc : List (String × β), (acc.map Prod.fst).Nodup →
      (((xs.foldl (fun a x => dictSet a (key x) (val x)) acc).map Prod.fst).Nodup) := by
  induction xs with
  | nil => intro acc h; exact h
  | cons x xs ih =>
      intro acc h
      exact ih _ (keys_dictSet_nodup _ _ _ h)

/-! ## Claim C10 — duplicate row labels overwrite in the row-presence map -/

/-- C10: in `analyze_row_filled_columns` results are keyed by the trimmed
column-0 label through plain dict assignment, so the mapping has one entry
per label whose value is the record of the LAST data row carrying it:
earlier duplicate rows are silently overwritten. -/
theorem c10_last_duplicate_wins (t : Table) (s v : Nat)
    (hv : v < t.rows.length) (hc : t.header ≠ []) :
    analyze_row_filled_columns t s v = .ok (rfModel t s v)
    ∧ ((rfModel t s v).map Prod.fst).Nodup
    ∧ ∀ name, (rfModel t s v).lookup name
        = ((t.rows.drop s).filter (fun r => pyStrip (r.getD 0 "") == name)).getLast?.map
            (rfEntryOf t v) := by
  refine ⟨analyze_rfc_ok t s v hv hc, ?_, ?_⟩
  · exact foldl_dictSet_nodup _ _ _ [] (by simp)
  · intro name
    rw [rfModel, foldl_dictSet_lookup (fun r => pyStrip (r.getD 0 "")) (rfEntryOf t v)]
    simp

/-- The concrete table used to instantiate the analytics theorems: rows 5
and 6 share the trimmed label `"dup"`. -/
def tC10 : Table :=
  ⟨["S", "C1", "C2"],
   [["per", "P1", "P1"], ["a", "b", "c"], ["d", "e", "f"], ["g", "h", "i"],
    ["vis", "V1", "V2"], ["dup", "1", ""], ["dup", "", "2"], ["s3", "x", "y"]]⟩

/-- Witness for the C10 theorem at a concrete table. -/
theorem c10_last_duplicate_wins_witness :
    (4 : Nat) < tC10.rows.length
    ∧ tC10.header ≠ []
    ∧ (rfModel tC10 5 4).lookup "dup"
        = ((tC10.rows.drop 5).filter (fun r => pyStrip (r.getD 0 "") == "dup")).getLast?.map
            (rfEntryOf tC10 4) :=
  ⟨by decide, by decide,
    (c10_last_duplicate_wins tC10 5 4 (by decide) (by decide)).2.2 "dup"⟩

/-! ## Claim C7 — tolerance of column/visit-name count mismatch -/

/-- The visit-name list read by `analyze_row_filled_columns` (the whole
visit row, cleaned). -/
def visitNamesOf (t : Table) (v : Nat) : List String :=
  (t.rows.getD v []).map cleanLabel

/-- The synthetic labels available for data columns beyond the visit-name
list. -/
def synthNames (t : Table) (v : Nat) : List String :=
  (List.range' (visitNamesOf t v).length (t.header.length - (visitNamesOf t v).length)).map
    (fun c => "col_" ++ toString c)

/-- The initial per-visit dict of `countdots`
(`{v: {"count": 0, "rows": []} for v in visits}`). -/
def dotsInit (t : Table) (v : Nat) : List (String × DotEntry) :=
  (dedupFirst (((t.rows.getD v []).drop 1).map cleanLabel)).map (fun x => (x, DotEntry.mk 0 []))

/-- One data row of the `countdots` loop. -/
def dotsStep (t : Table) (v : Nat) (res : List (String × DotEntry)) (r : List String) :
    List (String × DotEntry) :=
  (List.range (min (r.drop 1).length (((t.rows.getD v []).drop 1).map cleanLabel).length)).foldl
    (fun res j =>
      let cell := pyStrip ((r.drop 1).getD j "")
      if dotPresent cell then
        dictModify res ((((t.rows.getD v []).drop 1).map cleanLabel).getD j "")
          (fun e => ⟨e.count + 1, e.rows ++ [pyStrip (r.getD 0 "")]⟩)
      else res)
    res

/-- The dict built by `countdots` when no access fails. -/
def dotsModel (t : Table) (v : Nat) : List (String × DotEntry) :=
  (t.rows.drop (v + 1)).foldl (dotsStep t v) (dotsInit t v)

/-- With the visit row in bounds and at least one column, `countdots`
succeeds and computes `dotsModel`. -/
theorem countdots_ok (t : Table) (v : Nat) (hv : v < t.rows.length)
    (hc : t.header ≠ []) :
    countdots t v = .ok (dotsModel t v) := by
  have hsome : t.rows.get? v = some (t.rows.getD v []) := by
    rw [List.get?_eq_getElem?, List.getElem?_eq_getElem hv, List.getD_eq_getElem?_getD,
      List.getElem?_eq_getElem hv]
    rfl
  have hcond : (t.header.length == 0) = false := by
    simp [List.length_eq_zero, hc]
  rw [countdots, hsome]
  simp only [hcond, Bool.false_eq_true, if_false]
  exact foldlM_ok (dotsStep t v) _ _

/-- Total number of visits recorded across all periods. -/
def sumVisitCounts (m : List (String × List String)) : Nat :=
  (m.map (fun p => p.2.length)).sum

theorem setdefaultAppend_sum {β : Type} (l : List (String × List β)) (k : String) (b : β) :
    ((setdefaultAppend l k b).map (fun p => p.2.length)).sum
      = ((l.map (fun p => p.2.length)).sum) + 1 := by
  induction l with
  | nil => simp [setdefaultAppend]
  | cons p rest ih =>
      obtain ⟨k1, vs⟩ := p
      rw [setdefaultAppend]
      by_cases h1 : k1 == k
      · rw [if_pos h1]
        simp
        omega
      · rw [if_neg h1]
        simp only [List.map_cons, List.sum_cons, ih]
        omega

/-- `analyze_period` pairs with `zip` semantics: the total number of
recorded (period, visit) pairs is the length of the shorter input. -/
theorem analyze_period_total (r0 r1 : List String) :
    sumVisitCounts (analyze_period r0 r1) = min r0.length r1.length := by
  rw [analyze_period, sumVisitCounts, ← List.length_zip]
  generalize r0.zip r1 = l
  suffices h : ∀ acc : List (String × List String),
      ((l.foldl (fun res pv => setdefaultAppend res pv.1 pv.2) acc).map
        (fun p => p.2.length)).sum
      = (acc.map (fun p => p.2.length)).sum + l.length by
    simpa using h []
  induction l with
  | nil => intro acc; simp
  | cons x xs ih =>
      intro acc
      rw [List.foldl_cons, ih, setdefaultAppend_sum]
      simp
      omega

theorem length_filterMap_if {α β : Type} (p : α → Bool) (g : α → β) (l : List α) :
    (l.filterMap (fun a => if p a then some (g a) else none)).length
      = (l.filter p).length := by
  induction l with
  | nil => rfl
  | cons a as ih =>
      rw [List.filterMap_cons, List.filter_cons]
      by_cases h : p a
      · rw [if_pos h, if_pos h]
        simp [ih]
      · rw [if_neg h, if_neg h]
        exact ih

/-- C7: with the visit row in bounds and a label column present, the three
aggregations tolerate any mismatch between data-column count and
visit-name count: the row-presence mapping and the per-visit count both
succeed (no index error), `analyze_period` pairs with `zip` semantics
(total pairs = length of the shorter list, missing names giving an empty
pairing), and the row-presence mapping keeps one label per present data
cell — the visit name at that column when the visit list reaches it, else
a synthetic `"col_<index>"` name — never dropping a column. -/
theorem c7_mismatch_tolerance (t : Table) (s v : Nat)
    (hv : v < t.rows.length) (hc : t.header ≠ []) :
    exceptIsOk (analyze_row_filled_columns t s v) = true
    ∧ exceptIsOk (countdots t v) = true
    ∧ (∀ r0 r1 : List String, sumVisitCounts (analyze_period r0 r1) = min r0.length r1.length)
    ∧ (∀ r ∈ t.rows.drop s,
        (mappedVisitsOf t.header.length (visitNamesOf t v) r).length
          = ((List.range' 1 (t.header.length - 1)).filter
              (fun c => rfPresent (pyStrip (r.getD c "")))).length
        ∧ ∀ lab ∈ mappedVisitsOf t.header.length (visitNamesOf t v) r,
            lab ∈ visitNamesOf t v ∨ lab ∈ synthNames t v) := by
  refine ⟨?_, ?_, ?_, ?_⟩
  · rw [analyze_rfc_ok t s v hv hc]; rfl
  · rw [countdots_ok t v hv hc]; rfl
  · exact analyze_period_total
  · intro r _
    constructor
    · rw [mappedVisitsOf]
      exact length_filterMap_if (fun c => rfPresent (pyStrip (r.getD c "")))
        (fun c => if c < (visitNamesOf t v).length then (visitNamesOf t v).getD c ""
                  else "col_" ++ toString c) _
    · intro lab hlab
      rw [mappedVisitsOf] at hlab
      obtain ⟨c, hcmem, hceq⟩ := List.mem_filterMap.mp hlab
      simp only [] at hceq
      by_cases hp : rfPresent (pyStrip (r.getD c "")) = true
      · rw [if_pos hp] at hceq
        injection hceq with hlabeq
        by_cases hcl : c < (visitNamesOf t v).length
        · rw [if_pos hcl] at hlabeq
          left
          rw [← hlabeq, List.getD_eq_getElem?_getD, List.getElem?_eq_getElem hcl]
          exact List.getElem_mem hcl
        · rw [if_neg hcl] at hlabeq
          right
          rw [synthNames, ← hlabeq]
          apply List.mem_map_of_mem
          have hcr := List.mem_range'_1.mp hcmem
          have hge : (visitNamesOf t v).length ≤ c := by omega
          have hlen1 : 1 ≤ t.header.length := by
            cases hh : t.header with
            | nil => exact absurd hh hc
            | cons a l => simp [hh]
          rw [List.mem_range'_1]
          omega
      · rw [if_neg hp] at hceq
        simp at hceq

/-- Witness for the C7 theorem at a concrete table. -/
theorem c7_mismatch_tolerance_witness :
    (4 : Nat) < tC10.rows.length
    ∧ tC10.header ≠ []
    ∧ exceptIsOk (analyze_row_filled_columns tC10 5 4) = true
    ∧ sumVisitCounts (analyze_period ["P1"] ["V1", "V2"])
        = min (["P1"] : List String).length (["V1", "V2"] : List String).length
    ∧ ("V1" ∈ visitNamesOf tC10 4 ∨ "V1" ∈ synthNames tC10 4) :=
  ⟨by decide, by decide,
    (c7_mismatch_tolerance tC10 5 4 (by decide) (by decide)).1,
    (c7_mismatch_tolerance tC10 5 4 (by decide) (by decide)).2.2.1 ["P1"] ["V1", "V2"],
    ((c7_mismatch_tolerance tC10 5 4 (by decide) (by decide)).2.2.2 ["dup", "1", ""]
      (by decide)).2 "V1" (by decide)⟩

/-! ## Claim C1 (amended) — exact-match super-schema and NaN fill -/

/-- The ordered union of the headers under EXACT label equality with
first-occurrence order — the specification formula the code's `masterCols`
loop is compared against. -/
def orderedUnionExact (hs : List (List String)) : List String :=
  hs.foldl (fun acc h => h.foldl insLabel acc) []

theorem insLabel_mem (a : List String) (c x : String) :
    x ∈ insLabel a c ↔ x ∈ a ∨ x = c := by
  rw [insLabel]
  by_cases h : a.contains c
  · rw [if_pos h]
    constructor
    · exact Or.inl
    · rintro (hx | hx)
      · exact hx
      · subst hx
        simpa [List.elem_eq_mem] using h
  · rw [if_neg h]
    simp

theorem insLabel_nodup (a : List String) (c : String) (h : a.Nodup) :
    (insLabel a c).Nodup := by
  rw [insLabel]
  by_cases hc : a.contains c
  · rw [if_pos hc]; exact h
  · rw [if_neg hc]
    simp only [List.nodup_append, List.nodup_cons]
    refine ⟨h, by simp, ?_⟩
    intro x hx
    simp only [List.mem_singleton]
    intro he
    subst he
    exact hc (by simpa [List.elem_eq_mem] using hx)

theorem foldl_insLabel_mem (l : List String) :
    ∀ (acc : List String) (x : String), x ∈ l.foldl insLabel acc ↔ x ∈ acc ∨ x ∈ l := by
  induction l with
  | nil => intro acc x; simp
  | cons c cs ih =>
      intro acc x
      rw [List.foldl_cons, ih, insLabel_mem]
      simp only [List.mem_cons]
      tauto

theorem foldl_insLabel_nodup (l : List String) :
    ∀ acc : List String, acc.Nodup → (l.foldl insLabel acc).Nodup := by
  induction l with
  | nil => intro acc h; exact h
  | cons c cs ih => intro acc h; exact ih _ (insLabel_nodup acc c h)

theorem foldl_insLabel_of_nodup (l : List String) :
    ∀ acc : List String, l.Nodup → (∀ c ∈ l, c ∉ acc) → l.foldl insLabel acc = acc ++ l := by
  induction l with
  | nil => intro acc _ _; simp
  | cons c cs ih =>
      intro acc hnd hdisj
      rw [List.foldl_cons]
      have hins : insLabel acc c = acc ++ [c] := by
        rw [insLabel, if_neg]
        intro hc
        exact hdisj c (by simp) (by simpa [List.elem_eq_mem] using hc)
      rw [hins, ih (acc ++ [c]) (by simpa using hnd.of_cons) ?_, List.append_assoc]
      · rfl
      · intro x hx
        simp only [List.mem_append, List.mem_singleton]
        rintro (hxa | hxc)
        · exact hdisj x (by simp [hx]) hxa
        · subst hxc
          exact (List.nodup_cons.mp hnd).1 hx

theorem outer_foldl_mem (ds : List Table) :
    ∀ (acc : List String) (x : String),
      x ∈ ds.foldl (fun acc t => t.header.foldl insLabel acc) acc
        ↔ x ∈ acc ∨ ∃ g ∈ ds, x ∈ g.header := by
  induction ds with
  | nil => intro acc x; simp
  | cons d rest ih =>
      intro acc x
      rw [List.foldl_cons, ih, foldl_insLabel_mem]
      simp only [List.mem_cons]
      constructor
      · rintro (⟨hx | hx⟩ | ⟨g, hg, hx⟩)
        · exact Or.inl hx
        · exact Or.inr ⟨d, Or.inl rfl, hx⟩
        · exact Or.inr ⟨g, Or.inr hg, hx⟩
      · rintro (hx | ⟨g, hg | hg, hx⟩)
        · exact Or.inl (Or.inl hx)
        · subst hg
          exact Or.inl (Or.inr hx)
        · exact Or.inr ⟨g, hg, hx⟩

theorem outer_foldl_nodup (ds : List Table) :
    ∀ acc : List String, acc.Nodup →
      (ds.foldl (fun acc t => t.header.foldl insLabel acc) acc).Nodup := by
  induction ds with
  | nil => intro acc h; exact h
  | cons d rest ih => intro acc h; exact ih _ (foldl_insLabel_nodup _ _ h)

theorem masterCols_mem (ds : List Table) (x : String) :
    x ∈ masterCols ds ↔ ∃ g ∈ ds, x ∈ g.header := by
  cases ds with
  | nil => simp [masterCols]
  | cons d rest =>
      rw [masterCols, outer_foldl_mem]
      simp only [List.mem_cons]
      constructor
      · rintro (hx | ⟨g, hg, hx⟩)
        · exact ⟨d, Or.inl rfl, hx⟩
        · exact ⟨g, Or.inr hg, hx⟩
      · rintro ⟨g, hg | hg, hx⟩
        · subst hg
          exact Or.inl hx
        · exact Or.inr ⟨g, hg, hx⟩

theorem masterCols_nodup (ds : List Table) (h : ∀ g ∈ ds, g.header.Nodup) :
    (masterCols ds).Nodup := by
  cases ds with
  | nil => simp [masterCols]
  | cons d rest =>
      rw [masterCols]
      exact outer_foldl_nodup rest d.header (h d (by simp))

theorem masterCols_eq_orderedUnion (ds : List Table) (h : ∀ g ∈ ds, g.header.Nodup) :
    masterCols ds = orderedUnionExact (ds.map Table.header) := by
  cases ds with
  | nil => rfl
  | cons d rest =>
      rw [masterCols, orderedUnionExact, List.map_cons, List.foldl_cons, List.foldl_map]
      rw [foldl_insLabel_of_nodup d.header [] (h d (by simp)) (by simp)]
      rfl

/-- On a duplicate-free list, searching for the element at position `i`
finds exactly position `i`. -/
theorem findIdx?_beq_of_nodup (l : List String) :
    ∀ i : Nat, l.Nodup → (hi : i < l.length) →
      l.findIdx? (fun x => x == l[i]) = some i := by
  induction l with
  | nil => intro i _ hi; simp at hi
  | cons a as ih =>
      intro i hnd hi
      cases i with
      | zero =>
          rw [List.findIdx?_cons]
          simp
      | succ n =>
          rw [List.findIdx?_cons]
          have hn : n < as.length := by simpa using hi
          have hmem : as[n] ∈ as := List.getElem_mem hn
          have hne : (a == (a :: as)[n + 1]) = false := by
            have : a ≠ as[n] := by
              intro he
              exact (List.nodup_cons.mp hnd).1 (he ▸ hmem)
            simpa using this
          rw [hne]
          simp only [Bool.false_eq_true, if_false, List.findIdx?_succ]
          have := ih n (List.nodup_cons.mp hnd).2 (by simpa using hi)
          simp only [List.getElem_cons_succ]
          rw [this]
          rfl

/-- C1 (amended): the super-schema is the ordered union of the usable
grids' column labels under EXACT (case-sensitive) equality — equal to the
spec-level fold `orderedUnionExact`, duplicate-free, containing precisely
the labels occurring in some usable grid — and reindexing preserves the
header, the row count, copies each grid column to the master position of
its (exact) label, and fills every master column whose label the grid
lacks with NaN, modelled as the string `"nan"`, not with `""`. -/
theorem c1_exact_union_alignment (gs : List Table)
    (h : ∀ g ∈ usableTables gs, g.header.Nodup) :
    masterCols (usableTables gs) = orderedUnionExact ((usableTables gs).map Table.header)
    ∧ (masterCols (usableTables gs)).Nodup
    ∧ (∀ c, c ∈ masterCols (usableTables gs) ↔ ∃ g ∈ usableTables gs, c ∈ g.header)
    ∧ ∀ g ∈ usableTables gs,
        (alignTo (masterCols (usableTables gs)) g).header = masterCols (usableTables gs)
        ∧ (alignTo (masterCols (usableTables gs)) g).rows.length = g.rows.length
        ∧ ∀ r ∈ g.rows,
            (∀ i < g.header.length,
              (alignRow g.header (masterCols (usableTables gs)) r).getD
                  ((masterCols (usableTables gs)).indexOf (g.header.getD i "")) ""
                = r.getD i "")
            ∧ (∀ j < (masterCols (usableTables gs)).length,
                (masterCols (usableTables gs)).getD j "" ∉ g.header →
                (alignRow g.header (masterCols (usableTables gs)) r).getD j "" = "nan") := by
  refine ⟨masterCols_eq_orderedUnion _ h, masterCols_nodup _ h,
    fun c => masterCols_mem _ c, ?_⟩
  intro g hg
  refine ⟨rfl, by simp [alignTo], ?_⟩
  intro r _
  constructor
  · intro i hi
    have hc : g.header.getD i "" = g.header[i] := by
      rw [List.getD_eq_getElem?_getD, List.getElem?_eq_getElem hi]
      rfl
    rw [hc]
    have hmem : g.header[i] ∈ masterCols (usableTables gs) :=
      (masterCols_mem _ _).mpr ⟨g, hg, List.getElem_mem hi⟩
    have hjlt : (masterCols (usableTables gs)).indexOf g.header[i]
        < (masterCols (usableTables gs)).length :=
      List.indexOf_lt_length.mpr hmem
    rw [alignRow, List.getD_eq_getElem?_getD,
      List.getElem?_eq_getElem (by simpa using hjlt)]
    simp only [Option.getD_some, List.getElem_map]
    rw [List.getElem_indexOf hjlt, findIdx?_beq_of_nodup g.header i (h g hg) hi]
  · intro j hj hnot
    rw [alignRow, List.getD_eq_getElem?_getD,
      List.getElem?_eq_getElem (by simpa using hj)]
    simp only [Option.getD_some, List.getElem_map]
    have hMj : (masterCols (usableTables gs)).getD j ""
        = (masterCols (usableTables gs))[j] := by
      rw [List.getD_eq_getElem?_getD, List.getElem?_eq_getElem hj]
      rfl
    rw [hMj] at hnot
    have hfind : g.header.findIdx? (fun x => x == (masterCols (usableTables gs))[j])
        = none := by
      rw [List.findIdx?_eq_none_iff]
      intro x hx
      simp only [beq_eq_false_iff_ne, ne_eq]
      intro he
      exact hnot (he ▸ hx)
    rw [hfind]

/-- First concrete grid for the C1 witness. -/
def gA : Table := ⟨["A", "B"], [["x", "y"]]⟩

/-- Second concrete grid for the C1 witness. -/
def gB : Table := ⟨["B", "C"], [["u", "v"]]⟩

/-- Witness for the C1 theorem at two concrete grids. -/
theorem c1_exact_union_alignment_witness :
    masterCols (usableTables [gA, gB])
        = orderedUnionExact ((usableTables [gA, gB]).map Table.header)
    ∧ (alignRow gB.header (masterCols (usableTables [gA, gB])) ["u", "v"]).getD
        ((masterCols (usableTables [gA, gB])).indexOf (gB.header.getD 0 "")) ""
      = (["u", "v"] : List String).getD 0 ""
    ∧ (alignRow gA.header (masterCols (usableTables [gA, gB])) ["x", "y"]).getD 2 ""
      = "nan" :=
  ⟨(c1_exact_union_alignment [gA, gB] (by decide)).1,
    (((c1_exact_union_alignment [gA, gB] (by decide)).2.2.2 gB (by decide)).2.2
      ["u", "v"] (by decide)).1 0 (by decide),
    (((c1_exact_union_alignment [gA, gB] (by decide)).2.2.2 gA (by decide)).2.2
      ["x", "y"] (by decide)).2 2 (by decide) (by decide)⟩

/-! ## Claim C9 (amended) — null closure and empty-column drop -/

theorem replaceTok_not_six (x : String) : replaceTok x ∉ sixTokens := by
  rw [replaceTok]
  by_cases h : sixTokens.contains x = true
  · rw [if_pos h]
    decide
  · rw [if_neg h]
    intro hmem
    exact h (by simpa [List.elem_eq_mem] using hmem)

/-- Every cell surviving the main branch of step 6 avoids the six null
strings. -/
theorem drop_empty_cells (t : Table) (h : t.isEmptyB = false) :
    ∀ r ∈ (drop_empty_cols_and_fix_nulls t).rows, ∀ c ∈ r, c ∉ sixTokens := by
  rw [drop_empty_eq t h]
  intro r hr c hc
  simp only [] at hr
  obtain ⟨r1, hr1, hrsel⟩ := List.mem_map.mp hr
  rw [← hrsel] at hc
  rw [selCols] at hc
  obtain ⟨j, _, hcj⟩ := List.mem_map.mp hc
  obtain ⟨r0, _, hr0⟩ := List.mem_map.mp (by rw [replacedRows] at hr1; exact hr1)
  rw [← hr0] at hcj
  simp only [] at hcj
  by_cases hj : j < (r0.map replaceTok).length
  · rw [List.getD_eq_getElem?_getD, List.getElem?_eq_getElem hj] at hcj
    simp only [Option.getD_some, List.getElem_map] at hcj
    rw [← hcj]
    exact replaceTok_not_six _
  · rw [List.getD_eq_getElem?_getD,
      List.getElem?_eq_none (by simp only [List.length_map] at hj ⊢; omega)] at hcj
    rw [← hcj]
    decide

/-- In the main branch of step 6 every surviving column holds a non-blank
cell. -/
theorem drop_empty_cols_nonblank (t : Table) (h : t.isEmptyB = false) :
    ∀ j < (drop_empty_cols_and_fix_nulls t).header.length,
      ∃ r ∈ (drop_empty_cols_and_fix_nulls t).rows, pyStrip (r.getD j "") ≠ "" := by
  rw [drop_empty_eq t h]
  intro j hj
  simp only [selCols, List.length_map] at hj
  have hjk : (keptCols t).getD j 0 ∈ keptCols t := by
    rw [List.getD_eq_getElem?_getD, List.getElem?_eq_getElem hj]
    exact List.getElem_mem hj
  have hcol : colBlank (replacedRows t) ((keptCols t).getD j 0) = false := by
    have hmem := hjk
    rw [keptCols, List.mem_filter] at hmem
    simpa using hmem.2
  obtain ⟨r1, hr1, hne⟩ := (colBlank_false_iff _ _).mp hcol
  refine ⟨selCols (keptCols t) r1, List.mem_map_of_mem _ hr1, ?_⟩
  rw [selCols_getD _ _ _ hj]
  exact hne

theorem remove_rows_header (t : Table) :
    (remove_rows_with_many_nones t).header = t.header := by
  rw [remove_rows_with_many_nones]
  by_cases h : t.isEmptyB = true
  · rw [if_pos h]
  · rw [if_neg h]

theorem remove_repeated_header (t : Table) :
    (remove_repeated_header_rows t).header = t.header := by
  rw [remove_repeated_header_rows]
  by_cases h : t.isEmptyB = true
  · rw [if_pos h]
  · rw [if_neg h]
    by_cases h2 : ((t.rows.map normRow).filter
        (fun row => !(row.map normCell == t.header.map normCell))).isEmpty = true
    · rw [if_pos h2]
    · rw [if_neg h2]

theorem fill_empty_header (t : Table) :
    (fill_empty_header_with_previous t).header = t.header := by
  rw [fill_empty_header_with_previous]
  by_cases h : t.isEmptyB = true
  · rw [if_pos h]
  · rw [if_neg h]

theorem insLabel_isPref (a : List String) (c : String) : a <+: insLabel a c := by
  rw [insLabel]
  by_cases h : a.contains c = true
  · rw [if_pos h]
  · rw [if_neg h]
    exact ⟨[c], rfl⟩

theorem foldl_insLabel_isPref (l : List String) :
    ∀ acc : List String, acc <+: l.foldl insLabel acc := by
  induction l with
  | nil => intro acc; exact List.prefix_refl acc
  | cons c cs ih =>
      intro acc
      exact (insLabel_isPref acc c).trans (ih (insLabel acc c))

theorem outer_foldl_isPref (ds : List Table) :
    ∀ acc : List String,
      acc <+: ds.foldl (fun acc t => t.header.foldl insLabel acc) acc := by
  induction ds with
  | nil => intro acc; exact List.prefix_refl acc
  | cons d rest ih =>
      intro acc
      exact (foldl_insLabel_isPref d.header acc).trans (ih _)

theorem masterCols_ne_nil (dfs : List Table) (hne : dfs.isEmpty = false)
    (husable : ∀ g ∈ dfs, g.isEmptyB = false) : masterCols dfs ≠ [] := by
  cases dfs with
  | nil => simp at hne
  | cons d rest =>
      rw [masterCols]
      intro hmaster
      have hpre : d.header <+: rest.foldl (fun acc t => t.header.foldl insLabel acc) d.header :=
        outer_foldl_isPref rest d.header
      rw [hmaster] at hpre
      have hdheader : d.header = [] := List.prefix_nil.mp hpre
      have := husable d (by simp)
      rw [Table.isEmptyB, hdheader] at this
      simp at this

/-- If the selection of `normalize_headers_with_subcolumns` produced an
empty header (on a table that had columns), every output row is empty. -/
theorem normalize_empty_header_rows (t : Table) (ht : t.header ≠ [])
    (h5 : (normalize_headers_with_subcolumns t).header = []) :
    ∀ r ∈ (normalize_headers_with_subcolumns t).rows, r = [] := by
  rw [normalize_headers_with_subcolumns] at h5 ⊢
  by_cases h : t.isEmptyB = true
  · rw [if_pos h] at h5
    exact absurd h5 ht
  · rw [if_neg h] at h5 ⊢
    intro r hr
    simp only [selCols] at h5
    have hsel : locSel (t.header.map pyStrip)
        (headerScan (t.header.map pyStrip)).2.1 = [] := List.map_eq_nil_iff.mp h5
    obtain ⟨r1, _, hr1⟩ := List.mem_map.mp hr
    rw [← hr1, hsel]
    rfl

/-- C9 (amended): after the final cleaning step no cell of the stitched
table equals any of the six null strings, and when at least one row
survives, every surviving column holds a cell that is not
blank/whitespace-only (all-blank columns were dropped).  When all rows
were removed, the empty-axis early return keeps the columns — see the
counterexample. -/
theorem c9_closure (raw : List (Option Table)) :
    (∀ r ∈ (stitchList raw).rows, ∀ c ∈ r, c ∉ sixTokens)
    ∧ ((stitchList raw).rows ≠ [] →
        ((List.range (stitchList raw).header.length).all
          (fun j => (stitchList raw).rows.any (fun r => !(pyStrip (r.getD j "") == ""))))
          = true) := by
  rw [stitchList, stitchCore]
  by_cases hem : (usableTables (raw.filterMap id)).isEmpty = true
  · rw [if_pos hem]
    constructor
    · intro r hr
      simp at hr
    · intro hne
      simp at hne
  · rw [if_neg hem]
    rw [cleanSteps]
    set t5 := normalize_headers_with_subcolumns
      (fill_empty_header_with_previous
        (remove_repeated_header_rows
          (remove_rows_with_many_nones
            (concatAligned (masterCols (usableTables (raw.filterMap id)))
              (usableTables (raw.filterMap id)))))) with ht5
    by_cases h5 : t5.isEmptyB = true
    · rw [drop_empty_eq_empty t5 h5]
      have hrows_empty : t5.rows = [] ∨ ∀ r ∈ t5.rows, r = [] := by
        rw [Table.isEmptyB, Bool.or_eq_true] at h5
        rcases h5 with h5 | h5
        · exact Or.inl (by simpa using h5)
        · right
          have hmne : masterCols (usableTables (raw.filterMap id)) ≠ [] := by
            apply masterCols_ne_nil _ (by simpa using hem)
            intro g hg
            rw [usableTables, List.mem_filter] at hg
            simpa using hg.2
          have ht4 : (fill_empty_header_with_previous
              (remove_repeated_header_rows
                (remove_rows_with_many_nones
                  (concatAligned (masterCols (usableTables (raw.filterMap id)))
                    (usableTables (raw.filterMap id)))))).header
              = masterCols (usableTables (raw.filterMap id)) := by
            rw [fill_empty_header, remove_repeated_header, remove_rows_header]
            rfl
          apply normalize_empty_header_rows _ (by rw [ht4]; exact hmne)
          rw [← ht5]
          simpa using h5
      constructor
      · intro r hr c hc
        rcases hrows_empty with he | he
        · rw [he] at hr
          simp at hr
        · rw [he r hr] at hc
          simp at hc
      · intro hne
        rcases hrows_empty with he | he
        · exact absurd he hne
        · have hh : t5.header.isEmpty = true := by
            rw [Table.isEmptyB, Bool.or_eq_true] at h5
            rcases h5 with h5 | h5
            · exact absurd (by simpa using h5) hne
            · exact h5
          rw [List.isEmpty_iff] at hh
          rw [hh]
          rfl
    · have h5f : t5.isEmptyB = false := by simpa using h5
      constructor
      · exact drop_empty_cells t5 h5f
      · intro _
        rw [List.all_eq_true]
        intro j hj
        obtain ⟨r, hr, hrne⟩ :=
          drop_empty_cols_nonblank t5 h5f j (List.mem_range.mp hj)
        rw [List.any_eq_true]
        exact ⟨r, hr, by simpa using hrne⟩

/-- Witness for the C9 theorem at a concrete input. -/
theorem c9_closure_witness :
    ("x" : String) ∉ sixTokens
    ∧ ((stitchList [some ⟨["A", "B"], [["x", "y"]]⟩]).rows ≠ [])
    ∧ ((List.range (stitchList [some ⟨["A", "B"], [["x", "y"]]⟩]).header.length).all
        (fun j => (stitchList [some ⟨["A", "B"], [["x", "y"]]⟩]).rows.any
          (fun r => !(pyStrip (r.getD j "") == "")))) = true :=
  ⟨(c9_closure [some ⟨["A", "B"], [["x", "y"]]⟩]).1 ["x", "y"] (by decide) "x" (by decide),
    by decide,
    (c9_closure [some ⟨["A", "B"], [["x", "y"]]⟩]).2 (by decide)⟩

/-! ## Claim C8 — order preservation -/

theorem dedupFirst_go_sublist {α : Type} [BEq α] (l : List α) :
    ∀ seen : List α, (dedupFirst.go seen l).Sublist l := by
  induction l with
  | nil => intro seen; simp [dedupFirst.go]
  | cons a as ih =>
      intro seen
      rw [dedupFirst.go]
      by_cases h : seen.contains a = true
      · rw [if_pos h]
        exact (ih seen).trans (List.sublist_cons_self a as)
      · rw [if_neg h]
        exact List.Sublist.cons₂ a (ih (a :: seen))

theorem dedupFirst_sublist {α : Type} [BEq α] (l : List α) :
    (dedupFirst l).Sublist l :=
  dedupFirst_go_sublist l []

theorem remove_rows_rows_sublist (t : Table) :
    (remove_rows_with_many_nones t).rows.Sublist t.rows := by
  rw [remove_rows_with_many_nones]
  by_cases h : t.isEmptyB = true
  · rw [if_pos h]
  · rw [if_neg h]
    exact List.filter_sublist t.rows

theorem remove_repeated_rows_sublist (t : Table) (hh : t.header ≠ []) :
    (remove_repeated_header_rows t).rows.Sublist (t.rows.map normRow) := by
  rw [remove_repeated_header_rows]
  by_cases h : t.isEmptyB = true
  · rw [if_pos h]
    have : t.rows = [] := by
      rw [Table.isEmptyB, Bool.or_eq_true] at h
      rcases h with h | h
      · simpa using h
      · exact absurd (by simpa using h) hh
    rw [this]
    simp
  · rw [if_neg h]
    by_cases h2 : ((t.rows.map normRow).filter
        (fun row => !(row.map normCell == t.header.map normCell))).isEmpty = true
    · rw [if_pos h2]
      simp
    · rw [if_neg h2]
      exact (dedupFirst_sublist _).trans (List.filter_sublist _)

/-- The uniform per-row transformation of
`normalize_headers_with_subcolumns` on a table with the given header. -/
def step5Row (t : Table) (r : List String) : List String :=
  selCols (locSel (t.header.map pyStrip) (headerScan (t.header.map pyStrip)).2.1)
    (applyOps (headerScan (t.header.map pyStrip)).2.2 r)

/-- The uniform per-row transformation of `drop_empty_cols_and_fix_nulls`
on the given table. -/
def step6Row (t : Table) (r : List String) : List String :=
  selCols (keptCols t) (r.map replaceTok)

theorem fill_rows_mapHead (t : Table) (hh : t.header ≠ []) :
    (fill_empty_header_with_previous t).rows = mapHead (fillHeaderVals "") t.rows := by
  by_cases h : t.isEmptyB = true
  · rw [fill_empty_eq_empty t h]
    have : t.rows = [] := by
      rw [Table.isEmptyB, Bool.or_eq_true] at h
      rcases h with h | h
      · simpa using h
      · exact absurd (by simpa using h) hh
    rw [this]
    rfl
  · rw [fill_empty_eq t (by simpa using h)]

theorem normalize_rows_map (t : Table) (hh : t.header ≠ []) :
    (normalize_headers_with_subcolumns t).rows = t.rows.map (step5Row t) := by
  rw [normalize_headers_with_subcolumns]
  by_cases h : t.isEmptyB = true
  · rw [if_pos h]
    have : t.rows = [] := by
      rw [Table.isEmptyB, Bool.or_eq_true] at h
      rcases h with h | h
      · simpa using h
      · exact absurd (by simpa using h) hh
    rw [this]
    rfl
  · rw [if_neg h]
    simp only [List.map_map]
    rfl

theorem drop_empty_rows_map (t : Table) (hh : t.header ≠ []) :
    (drop_empty_cols_and_fix_nulls t).rows = t.rows.map (step6Row t) := by
  by_cases h : t.isEmptyB = true
  · rw [drop_empty_eq_empty t h]
    have : t.rows = [] := by
      rw [Table.isEmptyB, Bool.or_eq_true] at h
      rcases h with h | h
      · simpa using h
      · exact absurd (by simpa using h) hh
    rw [this]
    rfl
  · rw [drop_empty_eq t (by simpa using h)]
    simp only [replacedRows, List.map_map]
    rfl

theorem scan_newCols_prefix (hdr : List String) (l : List String) :
    ∀ st, st.2.1 <+: (l.foldl (headerScanStep hdr) st).2.1 := by
  induction l with
  | nil => intro st; exact List.prefix_refl _
  | cons c cs ih =>
      intro st
      refine List.IsPrefix.trans ?_ (ih (headerScanStep hdr st c))
      obtain ⟨seen, newCols, ops⟩ := st
      rw [headerScanStep]
      cases h : seen.lookup (pyLower c) with
      | some p => simp [h]
      | none => simp [h]

theorem locSel_ne_nil (hdr : List String) (hh : hdr ≠ []) :
    locSel hdr (headerScan hdr).2.1 ≠ [] := by
  cases hdr with
  | nil => exact absurd rfl hh
  | cons h0 hs =>
      have hpre : [h0] <+: (headerScan (h0 :: hs)).2.1 := by
        rw [headerScan, List.foldl_cons]
        have h1 : headerScanStep (h0 :: hs) ([], [], []) h0
            = ([(pyLower h0, 0)], [h0], []) := rfl
        rw [h1]
        exact scan_newCols_prefix (h0 :: hs) hs ([(pyLower h0, 0)], [h0], [])
      obtain ⟨l2, hl2⟩ := hpre
      rw [← hl2, locSel]
      simp only [List.singleton_append, List.flatMap_cons]
      have h0mem : 0 ∈ (List.range (h0 :: hs).length).filter
          (fun j => (h0 :: hs).getD j "" == h0) := by
        rw [List.mem_filter]
        exact ⟨List.mem_range.mpr (by simp), by simp⟩
      intro hnil
      rw [List.append_eq_nil] at hnil
      rw [hnil.1] at h0mem
      simp at h0mem

theorem normalize_header_ne (t : Table) (hh : t.header ≠ []) :
    (normalize_headers_with_subcolumns t).header ≠ [] := by
  rw [normalize_headers_with_subcolumns]
  by_cases h : t.isEmptyB = true
  · rw [if_pos h]
    exact hh
  · rw [if_neg h]
    simp only [selCols]
    rw [Ne, List.map_eq_nil_iff]
    exact locSel_ne_nil (t.header.map pyStrip) (by simpa using hh)

theorem remove_repeated_rows_of_nil (t : Table) (h : t.rows = []) :
    (remove_repeated_header_rows t).rows = [] := by
  rw [remove_repeated_header_rows, if_pos (by simp [Table.isEmptyB, h])]
  exact h

/-- The rows surviving steps 2 and 3 — a subsequence of the normalised
concatenated rows; the later steps only transform these rows in place. -/
def stitchKept (dfs0 : List Table) : List (List String) :=
  (remove_repeated_header_rows
    (remove_rows_with_many_nones
      (concatAligned (masterCols (usableTables dfs0)) (usableTables dfs0)))).rows

/-- The uniform per-row transformation applied by steps 5 and 6 to every
surviving row. -/
def stitchXform (dfs0 : List Table) : List String → List String :=
  fun r =>
    step6Row
      (normalize_headers_with_subcolumns
        (fill_empty_header_with_previous
          (remove_repeated_header_rows
            (remove_rows_with_many_nones
              (concatAligned (masterCols (usableTables dfs0)) (usableTables dfs0))))))
      (step5Row
        (fill_empty_header_with_previous
          (remove_repeated_header_rows
            (remove_rows_with_many_nones
              (concatAligned (masterCols (usableTables dfs0)) (usableTables dfs0)))))
        r)

/-- Row-order factorisation of the stitcher: the output rows are an
in-order subsequence of the (normalised) concatenated input rows, with the
head repaired and a uniform per-row transformation applied — rows are
never reordered by content. -/
theorem stitch_rows_factor (dfs0 : List Table) :
    (stitchKept dfs0).Sublist
      ((concatAligned (masterCols (usableTables dfs0)) (usableTables dfs0)).rows.map normRow)
    ∧ (stitchCore dfs0).rows
        = (mapHead (fillHeaderVals "") (stitchKept dfs0)).map (stitchXform dfs0) := by
  by_cases hem : (usableTables dfs0).isEmpty = true
  · have husable : usableTables dfs0 = [] := by simpa [List.isEmpty_iff] using hem
    have hCrows : (concatAligned (masterCols (usableTables dfs0))
        (usableTables dfs0)).rows = [] := by
      rw [concatAligned, husable]
      rfl
    have hkept : stitchKept dfs0 = [] := by
      rw [stitchKept]
      apply remove_repeated_rows_of_nil
      have h2 := remove_rows_rows_sublist
        (concatAligned (masterCols (usableTables dfs0)) (usableTables dfs0))
      rw [hCrows] at h2
      exact List.sublist_nil.mp h2
    refine ⟨by rw [hkept]; exact List.nil_sublist _, ?_⟩
    rw [stitchCore]
    simp only [hem, if_true]
    rw [hkept]
    rfl
  · have hmne : masterCols (usableTables dfs0) ≠ [] := by
      apply masterCols_ne_nil _ (by simpa using hem)
      intro g hg
      rw [usableTables, List.mem_filter] at hg
      simpa using hg.2
    have h2h : (remove_rows_with_many_nones
        (concatAligned (masterCols (usableTables dfs0)) (usableTables dfs0))).header
        = masterCols (usableTables dfs0) := remove_rows_header _
    have h3h : (remove_repeated_header_rows (remove_rows_with_many_nones
        (concatAligned (masterCols (usableTables dfs0)) (usableTables dfs0)))).header
        = masterCols (usableTables dfs0) := by
      rw [remove_repeated_header, h2h]
    have h4h : (fill_empty_header_with_previous (remove_repeated_header_rows
        (remove_rows_with_many_nones
          (concatAligned (masterCols (usableTables dfs0)) (usableTables dfs0))))).header
        = masterCols (usableTables dfs0) := by
      rw [fill_empty_header, h3h]
    constructor
    · rw [stitchKept]
      refine (remove_repeated_rows_sublist _ (by rw [h2h]; exact hmne)).trans ?_
      exact List.Sublist.map normRow (remove_rows_rows_sublist _)
    · rw [stitchCore]
      simp only [hem, if_false, Bool.false_eq_true]
      rw [cleanSteps]
      rw [drop_empty_rows_map _ (normalize_header_ne _ (by rw [h4h]; exact hmne))]
      rw [normalize_rows_map _ (by rw [h4h]; exact hmne)]
      rw [fill_rows_mapHead _ (by rw [h3h]; exact hmne)]
      rw [List.map_map]
      rfl

theorem collect_keys_filter (raw : List (Nat × Option Table)) :
    (collectPairs raw).map Prod.fst
      = (sortedKeys raw).filter (fun k => (entryAt raw k).isSome) := by
  rw [collectPairs]
  generalize sortedKeys raw = l
  induction l with
  | nil => rfl
  | cons k ks ih =>
      rw [List.filterMap_cons, List.filter_cons]
      cases h : entryAt raw k with
      | none => simp [h, ih]
      | some t => simp [h, ih]

theorem collect_keys_sorted (raw : List (Nat × Option Table)) :
    ((collectPairs raw).map Prod.fst).Sorted (· ≤ ·) := by
  rw [collect_keys_filter]
  exact List.Pairwise.sublist (List.filter_sublist _) (List.sorted_insertionSort _ _)

theorem entryAt_cons_self (k : Nat) (o : Option Table) (rest : List (Nat × Option Table)) :
    entryAt ((k, o) :: rest) k = o := by
  rw [entryAt, lookup_cons, if_pos (by simp)]
  cases o <;> rfl

theorem entryAt_cons_ne (k k2 : Nat) (o : Option Table) (rest : List (Nat × Option Table))
    (h : k2 ≠ k) : entryAt ((k, o) :: rest) k2 = entryAt rest k2 := by
  rw [entryAt, lookup_cons, if_neg (by simpa using h), entryAt]

theorem mapfst_filterMap_entry (raw : List (Nat × Option Table)) :
    (raw.map Prod.fst).Nodup →
      (raw.map Prod.fst).filterMap (fun k => (entryAt raw k).map (fun t => (k, t)))
        = raw.filterMap (fun p => p.2.map (fun t => (p.1, t))) := by
  induction raw with
  | nil => intro _; rfl
  | cons p rest ih =>
      intro hkeys
      obtain ⟨k, o⟩ := p
      rw [List.map_cons, List.filterMap_cons, List.filterMap_cons]
      simp only [List.map_cons, List.nodup_cons] at hkeys
      have hhead : (entryAt ((k, o) :: rest) k).map (fun t => (k, t))
          = o.map (fun t => (k, t)) := by
        rw [entryAt_cons_self]
      have htail : (rest.map Prod.fst).filterMap
          (fun k2 => (entryAt ((k, o) :: rest) k2).map (fun t => (k2, t)))
          = (rest.map Prod.fst).filterMap
            (fun k2 => (entryAt rest k2).map (fun t => (k2, t))) := by
        apply List.filterMap_congr
        intro k2 hk2
        rw [entryAt_cons_ne k k2 o rest ?_]
        intro he
        subst he
        exact hkeys.1 hk2
      rw [hhead, htail, ih hkeys.2]

theorem collect_perm (raw : List (Nat × Option Table))
    (hkeys : (raw.map Prod.fst).Nodup) :
    (collectPairs raw).Perm (raw.filterMap (fun p => p.2.map (fun t => (p.1, t)))) := by
  rw [collectPairs]
  have hperm : (sortedKeys raw).Perm (raw.map Prod.fst) := List.perm_insertionSort _ _
  refine (List.Perm.filterMap _ hperm).trans ?_
  rw [mapfst_filterMap_entry raw hkeys]

/-- C8: order preservation.  For a keyed (dict) input: the collected keys
come out in ascending order and the collected (key, table) pairs are
exactly the DataFrame entries of the input (a permutation, which together
with the sortedness and distinct keys pins the order); the stitched table
is the core pipeline applied to the collected tables in that order; and
the output rows are an order-preserving subsequence of the concatenated
aligned rows (normalised), with only the head row repaired and a uniform
per-row transformation applied — never reordered by content. -/
theorem c8_order_preservation (raw : List (Nat × Option Table))
    (hkeys : (raw.map Prod.fst).Nodup) :
    ((collectPairs raw).map Prod.fst).Sorted (· ≤ ·)
    ∧ (collectPairs raw).Perm (raw.filterMap (fun p => p.2.map (fun t => (p.1, t))))
    ∧ stitchDict raw = stitchCore ((collectPairs raw).map Prod.snd)
    ∧ (stitchKept ((collectPairs raw).map Prod.snd)).Sublist
        ((concatAligned (masterCols (usableTables ((collectPairs raw).map Prod.snd)))
            (usableTables ((collectPairs raw).map Prod.snd))).rows.map normRow)
    ∧ (stitchDict raw).rows
        = (mapHead (fillHeaderVals "") (stitchKept ((collectPairs raw).map Prod.snd))).map
            (stitchXform ((collectPairs raw).map Prod.snd)) :=
  ⟨collect_keys_sorted raw, collect_perm raw hkeys, rfl,
    (stitch_rows_factor _).1, (stitch_rows_factor _).2⟩

/-- Concrete dict input for the C8 witness: keys out of order, one
non-DataFrame page. -/
def rawC8 : List (Nat × Option Table) :=
  [(2, some ⟨["A", "B"], [["u", "v"]]⟩), (1, some ⟨["A", "B"], [["x", "y"]]⟩), (3, none)]

/-- Witness for the C8 theorem at a concrete dict input. -/
theorem c8_order_preservation_witness :
    ((collectPairs rawC8).map Prod.fst).Sorted (· ≤ ·)
    ∧ (stitchDict rawC8).rows
        = (mapHead (fillHeaderVals "") (stitchKept ((collectPairs rawC8).map Prod.snd))).map
            (stitchXform ((collectPairs rawC8).map Prod.snd)) :=
  ⟨(c8_order_preservation rawC8 (by decide)).1,
    (c8_order_preservation rawC8 (by decide)).2.2.2.2⟩
